import Mathlib

/-!
Verification of the epub2md cleanup pipeline against its specification.

The development shallowly embeds the text-rewrite passes of
src/epub2md/processors/cleanup.py, the image-reference normalizer of
src/epub2md/processors/images.py and the frontmatter synthesizer of
src/epub2md/converter.py as total functions on lists of characters.

Python regular-expression semantics are translated by hand into
deterministic character scanners.  Two behaviours of the CPython re
module that matter here were checked against an actual interpreter and
are reproduced exactly:

* with re.MULTILINE, a trailing pattern of the shape WS* END (such as
  the tail of the block-marker patterns) greedily consumes whitespace
  spanning several lines and then backtracks to end just before the
  last newline of the run (or consumes everything when the run reaches
  the end of the input), so a match can absorb whitespace-only lines
  that follow the marker line; the substitution then leaves a single
  empty line in place of all consumed lines;
* a negated character class such as "any character other than a right
  brace" also matches newline characters, so an opening block marker
  whose brace closes on a later line is matched across lines.

Character classes are modelled over ASCII (the artifact vocabulary the
passes target is ASCII); Python's whitespace class is the six
characters space, tab, newline, carriage return, form feed and
vertical tab.
-/

namespace Epub2md

/-- One line of text, and text generally, as a list of characters. -/
abbrev Line := List Char

/-- The left-brace character. -/
def lbrace : Char := Char.ofNat 123

/-- The right-brace character. -/
def rbrace : Char := Char.ofNat 125

/-- Python's whitespace class: space, tab, newline, CR, vertical tab, form feed. -/
def isWsChar (c : Char) : Bool :=
  c = ' ' || c = '\t' || c = '\n' || c = '\r' || c = Char.ofNat 11 || c = Char.ofNat 12

/-- A line consisting only of whitespace characters (including the empty line). -/
def wsOnly (l : Line) : Bool := l.all isWsChar

/-- Python str.strip(): drop whitespace from both ends. -/
def pyStrip (l : Line) : Line :=
  ((l.dropWhile isWsChar).reverse.dropWhile isWsChar).reverse

/-- Python str.rstrip(): drop trailing whitespace. -/
def pyRStrip (l : Line) : Line :=
  (l.reverse.dropWhile isWsChar).reverse

/-- Split a character list at every occurrence of a separator character,
mirroring Python str.split(sep); the empty text yields one empty chunk. -/
def splitOnChar (sep : Char) : List Char → List (List Char)
  | [] => [[]]
  | c :: cs =>
    if c = sep then [] :: splitOnChar sep cs
    else
      match splitOnChar sep cs with
      | [] => [[c]]
      | l :: ls => (c :: l) :: ls

/-- Split text into its lines at newline characters. -/
def splitLines (s : List Char) : List Line := splitOnChar '\n' s

/-- Join lines with newline separators, mirroring Python "\n".join. -/
def joinLines : List Line → List Char
  | [] => []
  | [l] => l
  | l :: l2 :: ls => l ++ '\n' :: joinLines (l2 :: ls)

/-- Drop an expected literal from the front of the text, or fail. -/
def dropLit : List Char → List Char → Option (List Char)
  | [], s => some s
  | _ :: _, [] => none
  | p :: ps, c :: cs => if c = p then dropLit ps cs else none

/-- Is the first list a leading segment of the second? -/
def isPre : List Char → List Char → Bool
  | [], _ => true
  | _ :: _, [] => false
  | p :: ps, c :: cs => c = p && isPre ps cs

/-- Does the text contain the pattern as a contiguous sublist? -/
def hasSub (pat : List Char) : List Char → Bool
  | [] => isPre pat []
  | c :: cs => isPre pat (c :: cs) || hasSub pat cs

/-! ## Block-wrapper (div marker) removal, cleanup.py lines 82-107

The source counts and deletes matches of the two MULTILINE patterns

  open marker:  line start, ":::", space, "{", any non-brace run, "}", WS* END
  close marker: line start, ":::", WS* END

As established above, a match always starts at a line start and ends
just before a newline or at the end of input, possibly spanning
several input lines, and the empty replacement leaves a single empty
line in place of the consumed lines.  We therefore model both
substitution and counting as scanners over the list of lines: a match
starting at line l consumes l, any further lines needed to reach the
first right brace (open pattern only), and the maximal run of
following whitespace-only lines. -/

/-- The text after the first right brace, if the text contains one
(the regex fragment: non-brace run followed by a right brace). -/
def braceSplit (l : List Char) : Option (List Char) :=
  match l.dropWhile (fun c => !(c = rbrace)) with
  | [] => none
  | _ :: rest => some rest

/-- Does the line begin with an opening block marker head ":::", space, "{"? -/
def startsOpen (l : Line) : Bool :=
  match l with
  | a :: b :: c :: d :: e :: _ => a = ':' && b = ':' && c = ':' && d = ' ' && e = lbrace
  | _ => false

/-- Continue an open-marker match: cur is the text already past the "{";
the result counts how many of the following lines the match consumes
(lines crossed while searching the first right brace, then the maximal
run of whitespace-only lines absorbed by the trailing WS* END). -/
def matchOpenTail : List Char → List Line → Option Nat
  | cur, [] =>
    match braceSplit cur with
    | some after => if wsOnly after then some 0 else none
    | none => none
  | cur, x :: xs =>
    match braceSplit cur with
    | some after =>
      if wsOnly after then some ((x :: xs).takeWhile wsOnly).length else none
    | none => (matchOpenTail x xs).map (fun n => n + 1)

/-- Try an open-marker match at the head of the line list; on success,
return the total number of lines consumed (at least one). -/
def matchO : List Line → Option Nat
  | [] => none
  | l :: t =>
    if startsOpen l then (matchOpenTail (l.drop 5) t).map (fun n => n + 1) else none

/-- A single line that is exactly a closing block marker: ":::" then only whitespace. -/
def isCloseMarkerLine (l : Line) : Bool :=
  match l with
  | a :: b :: c :: r => a = ':' && b = ':' && c = ':' && wsOnly r
  | _ => false

/-- Try a close-marker match at the head of the line list; the head must
be ":::" followed only by whitespace, and the match absorbs the maximal
run of following whitespace-only lines. -/
def matchC : List Line → Option Nat
  | [] => none
  | l :: t =>
    if isCloseMarkerLine l then some ((t.takeWhile wsOnly).length + 1) else none

/-- Fueled scanner applying a marker matcher at every line position,
replacing each match by one empty line (the residue the empty-string
substitution leaves between the surrounding newlines). -/
def subMAux (m : List Line → Option Nat) : Nat → List Line → List Line
  | 0, ls => ls
  | _ + 1, [] => []
  | fuel + 1, l :: t =>
    match m (l :: t) with
    | some n => [] :: subMAux m fuel ((l :: t).drop n)
    | none => l :: subMAux m fuel t

/-- Fueled scanner counting matches, mirroring re.findall over the same scan. -/
def countMAux (m : List Line → Option Nat) : Nat → List Line → Nat
  | 0, _ => 0
  | _ + 1, [] => 0
  | fuel + 1, l :: t =>
    match m (l :: t) with
    | some n => countMAux m fuel ((l :: t).drop n) + 1
    | none => countMAux m fuel t

/-- remove_div_blocks_from_content: count open- and close-marker matches
in the input, then delete first all open matches, then all close
matches (cleanup.py lines 82-107). -/
def removeDivBlocksFromContent (content : List Char) : List Char × Nat :=
  let ls := splitLines content
  let count := countMAux matchO ls.length ls + countMAux matchC ls.length ls
  let ls1 := subMAux matchO ls.length ls
  let ls2 := subMAux matchC ls1.length ls1
  (joinLines ls2, count)

/-- A single line that is exactly an opening block marker: the open head,
a brace-closed attribute set on the same line, then only whitespace. -/
def isOpenMarkerLine (l : Line) : Bool :=
  startsOpen l &&
    (match braceSplit (l.drop 5) with
     | some after => wsOnly after
     | none => false)

/-! ## Character-level substitution scanners

Each remaining regular expression of cleanup.py is deterministic (no
pattern there requires backtracking beyond the greedy runs resolved
below), so each is translated into a matcher that either recognises a
match at the current position, returning the replacement text and the
remaining input, or fails.  A fueled driver mirrors re.sub/re.findall:
it scans left to right, skips one character on failure, and continues
after the consumed text (never rescanning the replacement). -/

/-- Fueled left-to-right substitution driver over characters. -/
def csubAux (m : List Char → Option (List Char × List Char)) :
    Nat → List Char → List Char
  | 0, s => s
  | _ + 1, [] => []
  | fuel + 1, c :: cs =>
    match m (c :: cs) with
    | some (rep, rest) => rep ++ csubAux m fuel rest
    | none => c :: csubAux m fuel cs

/-- Fueled match counter over the same scan, mirroring re.findall. -/
def ccountAux (m : List Char → Option (List Char × List Char)) :
    Nat → List Char → Nat
  | 0, _ => 0
  | _ + 1, [] => 0
  | fuel + 1, c :: cs =>
    match m (c :: cs) with
    | some (_, rest) => ccountAux m fuel rest + 1
    | none => ccountAux m fuel cs

/-- Run a substitution with enough fuel for the whole input. -/
def csub (m : List Char → Option (List Char × List Char)) (s : List Char) : List Char :=
  csubAux m s.length s

/-- Count the matches of a scan with enough fuel for the whole input. -/
def ccount (m : List Char → Option (List Char × List Char)) (s : List Char) : Nat :=
  ccountAux m s.length s

/-- Fueled driver for patterns anchored at a line start (MULTILINE caret). -/
def csubLSAux (m : List Char → Option (List Char × List Char)) :
    Nat → Bool → List Char → List Char
  | 0, _, s => s
  | _ + 1, _, [] => []
  | fuel + 1, atLS, c :: cs =>
    match (if atLS then m (c :: cs) else none) with
    | some (rep, rest) => rep ++ csubLSAux m fuel false rest
    | none => c :: csubLSAux m fuel (c = '\n') cs

/-- Run a line-start-anchored substitution from the start of input. -/
def csubLS (m : List Char → Option (List Char × List Char)) (s : List Char) : List Char :=
  csubLSAux m s.length true s

/-! ## Span-artifact removal, cleanup.py lines 110-127 -/

/-- The text after the first right brace, or failure when the attribute
set never closes (an unbalanced brace leaves the occurrence unmatched). -/
def untilRBrace (s : List Char) : Option (List Char) :=
  match s.dropWhile (fun c => !(c = rbrace)) with
  | [] => none
  | _ :: rest => some rest

/-- Matcher for an empty span artifact: "[", "]", "{", non-brace run, "}". -/
def spanM1 : List Char → Option (List Char × List Char)
  | a :: b :: c :: r =>
    if a = '[' && b = ']' && c = lbrace then
      (untilRBrace r).map (fun rest => (([] : List Char), rest))
    else none
  | _ => none

/-- Matcher for a whitespace-only span artifact:
"[", whitespace run, "]", "{", non-brace run, "}". -/
def spanM2 : List Char → Option (List Char × List Char)
  | a :: r =>
    if a = '[' then
      match r.dropWhile isWsChar with
      | b :: c :: r2 =>
        if b = ']' && c = lbrace then
          (untilRBrace r2).map (fun rest => (([] : List Char), rest))
        else none
      | _ => none
    else none
  | [] => none

/-- remove_span_artifacts: delete empty spans, then whitespace-only spans,
counting matches of each pass (the second count is taken on the output of
the first substitution, as in the source). -/
def removeSpanArtifacts (s : List Char) : List Char × Nat :=
  let n1 := ccount spanM1 s
  let s1 := csub spanM1 s
  let n2 := ccount spanM2 s1
  let s2 := csub spanM2 s1
  (s2, n1 + n2)

/-- Brace balance check used to state malformed-attribute inputs: the
text is balanced when every right brace closes an earlier left brace
and every left brace is eventually closed. -/
def braceBalancedAux : Nat → List Char → Bool
  | d, [] => d = 0
  | d, c :: cs =>
    if c = lbrace then braceBalancedAux (d + 1) cs
    else if c = rbrace then
      (if d = 0 then false else braceBalancedAux (d - 1) cs)
    else braceBalancedAux d cs

/-- Whether all braces of the text are balanced. -/
def braceBalanced (s : List Char) : Bool := braceBalancedAux 0 s

/-! ## Header formatting, cleanup.py lines 130-163 -/

/-- Does the line start with one to six hashes followed by a whitespace
character (the header-line test)? -/
def isHeaderStart (l : Line) : Bool :=
  let hs := l.takeWhile (fun c => c = '#')
  decide (1 ≤ hs.length) && decide (hs.length ≤ 6) &&
    (match l.drop hs.length with
     | c :: _ => isWsChar c
     | [] => false)

/-- Does a trailing attribute block start here: whitespace run, "{",
non-brace run, "}", then only whitespace to the end of the line? -/
def headerAttrHere (l : Line) : Bool :=
  match (l.dropWhile isWsChar) with
  | c :: r =>
    c = lbrace &&
      (match untilRBrace r with
       | some after => wsOnly after
       | none => false)
  | [] => false

/-- Remove the leftmost trailing attribute block of a header line,
returning the text before it, or fail when no such block exists. -/
def stripHeaderAttr : Line → Option Line
  | [] => none
  | c :: cs =>
    if headerAttrHere (c :: cs) then some []
    else (stripHeaderAttr cs).map (fun p => c :: p)

/-- Lazy search for the minimal bold-closing split: the accumulated group
grows one character at a time until "**" followed by only whitespace
closes the line. -/
def boldAux : Line → Line → Option Line
  | acc, a :: b :: rest =>
    if a = '*' && b = '*' && !(acc.isEmpty) && wsOnly rest then some acc.reverse
    else boldAux (a :: acc) (b :: rest)
  | _, _ => none

/-- Full-line bold rewrite of a header: one to six hashes, mandatory
whitespace, "**", a minimal nonempty group, "**", trailing whitespace;
on success the line becomes hashes, one space, the group. -/
def boldHeaderRewrite (l : Line) : Option Line :=
  let hs := l.takeWhile (fun c => c = '#')
  if decide (1 ≤ hs.length) && decide (hs.length ≤ 6) then
    match (l.drop hs.length).dropWhile isWsChar with
    | '*' :: '*' :: t =>
      if ((l.drop hs.length).takeWhile isWsChar).isEmpty then none
      else (boldAux [] t).map (fun g2 => hs ++ ' ' :: g2)
    | _ => none
  else none

/-- fix_header_formatting applied to one line: on a header line, strip a
trailing attribute block (counted), delete empty-span artifacts, then
unwrap a full-line bold pair. -/
def fixHeaderLine (l : Line) : Line × Nat :=
  if isHeaderStart l then
    let r1 := match stripHeaderAttr l with
      | some p => (p, 1)
      | none => (l, 0)
    let l2 := csub spanM1 r1.1
    let l3 := match boldHeaderRewrite l2 with
      | some x => x
      | none => l2
    (l3, r1.2)
  else (l, 0)

/-- fix_header_formatting: process each line, join, sum the counts. -/
def fixHeaderFormatting (s : List Char) : List Char × Nat :=
  let results := (splitLines s).map fixHeaderLine
  (joinLines (results.map Prod.fst), (results.map Prod.snd).sum)

/-! ## Link-artifact removal, cleanup.py lines 166-194 -/

/-- An identifier character of the internal-anchor pattern: ASCII letter,
digit or underscore. -/
def isIdentChar (c : Char) : Bool := c.isAlphanum || c = '_'

/-- Matcher for an internal HTML-anchor link: "[", non-bracket run, "]",
"(", "#", identifier run, ".html", non-paren run, ")"; replaced by the
link text alone. -/
def linkM1 : List Char → Option (List Char × List Char)
  | '[' :: r =>
    match r.dropWhile (fun c => !(c = ']')) with
    | ']' :: '(' :: '#' :: r2 =>
      if (r2.takeWhile isIdentChar).isEmpty then none
      else
        match dropLit (".html".toList) (r2.dropWhile isIdentChar) with
        | some r3 =>
          match r3.dropWhile (fun c => !(c = ')')) with
          | ')' :: rest => some (r.takeWhile (fun c => !(c = ']')), rest)
          | _ => none
        | none => none
    | _ => none
  | _ => none

/-- Matcher for an empty internal link: "[", "]", "(", "#", non-paren run, ")". -/
def linkM2 : List Char → Option (List Char × List Char)
  | '[' :: ']' :: '(' :: '#' :: r =>
    (match r.dropWhile (fun c => !(c = ')')) with
     | ')' :: rest => some (([] : List Char), rest)
     | _ => none)
  | _ => none

/-- Matcher for a package-root image path: "![", alt, "](OEBPS/images/",
nonempty non-paren run, ")"; rewritten to the flat images path. -/
def linkM3 : List Char → Option (List Char × List Char)
  | '!' :: '[' :: r =>
    match r.dropWhile (fun c => !(c = ']')) with
    | ']' :: '(' :: r2 =>
      match dropLit ("OEBPS/images/".toList) r2 with
      | some r3 =>
        if (r3.takeWhile (fun c => !(c = ')'))).isEmpty then none
        else
          match r3.dropWhile (fun c => !(c = ')')) with
          | ')' :: rest =>
            some ('!' :: '[' :: r.takeWhile (fun c => !(c = ']'))
              ++ "](images/".toList ++ r3.takeWhile (fun c => !(c = ')')) ++ [')'], rest)
          | _ => none
      | none => none
    | _ => none
  | _ => none

/-- Matcher for a one-level-up relative image path "![", alt,
"](../images/", nonempty non-paren run, ")". -/
def linkM4 : List Char → Option (List Char × List Char)
  | '!' :: '[' :: r =>
    match r.dropWhile (fun c => !(c = ']')) with
    | ']' :: '(' :: r2 =>
      match dropLit ("../images/".toList) r2 with
      | some r3 =>
        if (r3.takeWhile (fun c => !(c = ')'))).isEmpty then none
        else
          match r3.dropWhile (fun c => !(c = ')')) with
          | ')' :: rest =>
            some ('!' :: '[' :: r.takeWhile (fun c => !(c = ']'))
              ++ "](images/".toList ++ r3.takeWhile (fun c => !(c = ')')) ++ [')'], rest)
          | _ => none
      | none => none
    | _ => none
  | _ => none

/-- fix_link_artifacts: four sequential substitutions; the first three
are counted, the relative-path rewrite is not. -/
def fixLinkArtifacts (s : List Char) : List Char × Nat :=
  let n1 := ccount linkM1 s
  let s1 := csub linkM1 s
  let n2 := ccount linkM2 s1
  let s2 := csub linkM2 s1
  let n3 := ccount linkM3 s2
  let s3 := csub linkM3 s2
  let s4 := csub linkM4 s3
  (s4, n1 + n2 + n3)

/-! ## Whitespace normalization, cleanup.py lines 197-220 -/

/-- Collapse every run of four or more newlines to exactly three. -/
def collapseNl4 : Nat → List Char → List Char
  | 0, s => s
  | _ + 1, [] => []
  | fuel + 1, c :: cs =>
    if c = '\n' then
      (if 4 ≤ ((c :: cs).takeWhile (fun d => d = '\n')).length
       then ['\n', '\n', '\n']
       else (c :: cs).takeWhile (fun d => d = '\n'))
        ++ collapseNl4 fuel ((c :: cs).dropWhile (fun d => d = '\n'))
    else c :: collapseNl4 fuel cs

/-- Matcher inserting a blank line before a header: a non-newline
character, a newline, one to six hashes, a whitespace character. -/
def blankBeforeHeaderM : List Char → Option (List Char × List Char)
  | c :: '\n' :: r =>
    if c = '\n' then none
    else
      let hs := r.takeWhile (fun d => d = '#')
      if decide (1 ≤ hs.length) && decide (hs.length ≤ 6) then
        match r.drop hs.length with
        | w :: rest2 =>
          if isWsChar w then some (c :: '\n' :: '\n' :: (hs ++ [w]), rest2) else none
        | [] => none
      else none
  | _ => none

/-- normalize_whitespace_content: collapse long blank runs, strip line
trailing whitespace, insert a blank line before headers, strip leading
newlines, end with exactly one newline. -/
def normalizeWhitespaceContent (s : List Char) : List Char :=
  let s1 := collapseNl4 s.length s
  let s2 := joinLines ((splitLines s1).map pyRStrip)
  let s3 := csub blankBeforeHeaderM s2
  let s4 := s3.dropWhile (fun c => c = '\n')
  (s4.reverse.dropWhile (fun c => c = '\n')).reverse ++ ['\n']

/-! ## Final artifact sweep, cleanup.py lines 223-298 -/

/-- The MULTILINE trailing fragment: whitespace run then end of line.
The match consumes the maximal whitespace run truncated just before its
last newline (everything when the run reaches the end of input); fails
when the run neither contains a newline nor reaches the end. -/
def lastNlSplit : List Char → Option (List Char × List Char)
  | [] => none
  | c :: cs =>
    match lastNlSplit cs with
    | some (p, q) => some (c :: p, q)
    | none => if c = '\n' then some ([], c :: cs) else none

/-- Consume the trailing whitespace of a line-anchored match, returning
the rest of the input after the match. -/
def wsTailMatch (s : List Char) : Option (List Char) :=
  if (s.dropWhile isWsChar).isEmpty then some []
  else
    match lastNlSplit (s.takeWhile isWsChar) with
    | some (_, fromNl) => some (fromNl ++ s.dropWhile isWsChar)
    | none => none

/-- Count the leading escaped-asterisk pairs of the text. -/
def escPairs : List Char → Nat × List Char
  | '\\' :: '*' :: r =>
    match escPairs r with
    | (n, rest) => (n + 1, rest)
  | s => (0, s)

/-- Matcher (line-anchored) for a separator of escaped asterisks:
at least two escaped-asterisk pairs, then trailing whitespace to the
line end; replaced by a newline, three hyphens, a newline. -/
def finalEscSepM (s : List Char) : Option (List Char × List Char) :=
  match escPairs s with
  | (n, r) =>
    if 2 ≤ n then (wsTailMatch r).map (fun rest => ("\n---\n".toList, rest)) else none

/-- Consume k repetitions of whitespace run then an asterisk. -/
def starsM : Nat → List Char → Option (List Char)
  | 0, s => some s
  | k + 1, s =>
    match s.dropWhile isWsChar with
    | '*' :: r => starsM k r
    | _ => none

/-- Matcher (line-anchored) for a spaced-asterisk separator: an asterisk,
four more whitespace-separated asterisks, trailing whitespace to the
line end; replaced by a newline, three hyphens, a newline. -/
def finalStarSepM : List Char → Option (List Char × List Char)
  | '*' :: r =>
    match starsM 4 r with
    | some r4 => (wsTailMatch r4).map (fun rest => ("\n---\n".toList, rest))
    | none => none
  | _ => none

/-- Matcher deleting a fixed literal. -/
def litM (pat : List Char) (s : List Char) : Option (List Char × List Char) :=
  (dropLit pat s).map (fun rest => ([], rest))

/-- Matcher for an attribute fragment: the name, equals, a double-quoted
value (non-quote run); the whole fragment is deleted. -/
def attrValM (name : List Char) (s : List Char) : Option (List Char × List Char) :=
  match dropLit (name ++ "=\"".toList) s with
  | some r =>
    (match r.dropWhile (fun c => !(c = '"')) with
     | '"' :: rest => some (([] : List Char), rest)
     | _ => none)
  | none => none

/-- Matcher for an opening or closing HTML tag remnant of the given name:
"<", optional "/", the name, a non-gt run, ">". -/
def tagM (name : List Char) : List Char → Option (List Char × List Char)
  | '<' :: r =>
    (match dropLit name (if r.head? = some '/' then r.tail else r) with
     | some r2 =>
       (match r2.dropWhile (fun c => !(c = '>')) with
        | '>' :: rest => some (([] : List Char), rest)
        | _ => none)
     | none => none)
  | _ => none

/-- A word character of the attribute-marker pattern (ASCII letter,
digit, underscore) or hyphen or colon. -/
def isWordMark (c : Char) : Bool := c.isAlphanum || c = '_' || c = '-' || c = ':'

/-- Matcher for a brace id/class marker: "{", "#" or ".", a nonempty run
of word/hyphen/colon characters, "}". -/
def braceIdM : List Char → Option (List Char × List Char)
  | a :: b :: r =>
    if a = lbrace && (b = '#' || b = '.') && !(r.takeWhile isWordMark).isEmpty then
      match r.dropWhile isWordMark with
      | c :: rest => if c = rbrace then some ([], rest) else none
      | [] => none
    else none
  | _ => none

/-- A class-name character of the dotted-class pattern: ASCII letter,
underscore or hyphen. -/
def isClsChar (c : Char) : Bool := c.isAlpha || c = '_' || c = '-'

/-- Matcher for a dotted-class marker: "{", ".", a nonempty class-name
run, a whitespace run, "}". -/
def braceClsM : List Char → Option (List Char × List Char)
  | a :: b :: r =>
    if a = lbrace && b = '.' && !(r.takeWhile isClsChar).isEmpty then
      match (r.dropWhile isClsChar).dropWhile isWsChar with
      | c :: rest => if c = rbrace then some ([], rest) else none
      | [] => none
    else none
  | _ => none

/-- Matcher for an image construct followed by a brace attribute:
"![", alt, "](", nonempty path, ")", "{", non-brace run, "}"; the brace
part is dropped and the image construct kept. -/
def imgAttrM : List Char → Option (List Char × List Char)
  | '!' :: '[' :: r =>
    match r.dropWhile (fun c => !(c = ']')) with
    | ']' :: '(' :: r2 =>
      if (r2.takeWhile (fun c => !(c = ')'))).isEmpty then none
      else
        match r2.dropWhile (fun c => !(c = ')')) with
        | ')' :: b :: r3 =>
          if b = lbrace then
            (untilRBrace r3).map (fun rest =>
              ('!' :: '[' :: r.takeWhile (fun c => !(c = ']'))
                ++ "](".toList ++ r2.takeWhile (fun c => !(c = ')')) ++ [')'], rest))
          else none
        | _ => none
    | _ => none
  | _ => none

/-- Matcher for a stray name/id attribute: whitespace run, the name,
equals, a double-quoted value; all deleted. -/
def wsAttrM (name : List Char) (s : List Char) : Option (List Char × List Char) :=
  match dropLit (name ++ "=\"".toList) (s.dropWhile isWsChar) with
  | some r =>
    (match r.dropWhile (fun c => !(c = '"')) with
     | '"' :: rest => some (([] : List Char), rest)
     | _ => none)
  | none => none

/-- Matcher unwrapping underline-styled link text: "[[", nonempty text,
"]{.underline}]"; replaced by "[", the text, "]". -/
def underlineM : List Char → Option (List Char × List Char)
  | '[' :: '[' :: r =>
    if (r.takeWhile (fun c => !(c = ']'))).isEmpty then none
    else
      match r.dropWhile (fun c => !(c = ']')) with
      | ']' :: r2 =>
        match dropLit (lbrace :: ".underline".toList ++ [rbrace, ']']) r2 with
        | some rest =>
          some ('[' :: r.takeWhile (fun c => !(c = ']')) ++ [']'], rest)
        | none => none
      | _ => none
  | _ => none

/-- Parse a whole stripped line as an image construct "![", alt, "](",
nonempty path, ")", trailing whitespace; returns the path. -/
def imgLinePath (st : Line) : Option (List Char) :=
  match st with
  | '!' :: '[' :: r =>
    match r.dropWhile (fun c => !(c = ']')) with
    | ']' :: '(' :: r2 =>
      if (r2.takeWhile (fun c => !(c = ')'))).isEmpty then none
      else
        match r2.dropWhile (fun c => !(c = ')')) with
        | ')' :: rest =>
          if wsOnly rest then some (r2.takeWhile (fun c => !(c = ')'))) else none
        | _ => none
    | _ => none
  | _ => none

/-- Whole-document duplicate-image-line removal: a line whose stripped
text is exactly an image construct is dropped when its path was already
seen on an earlier such line. -/
def dedupImgLines : List (List Char) → List Line → List Line
  | _, [] => []
  | seen, l :: ls =>
    match imgLinePath (pyStrip l) with
    | some p =>
      if p ∈ seen then dedupImgLines seen ls
      else l :: dedupImgLines (p :: seen) ls
    | none => l :: dedupImgLines seen ls

/-- A character of the artifact-only line class: whitespace, hyphen,
asterisk, underscore, hash or brace. -/
def isArtifactChar (c : Char) : Bool :=
  isWsChar c || c = '-' || c = '*' || c = '_' || c = '#' || c = lbrace || c = rbrace

/-- Drop lines whose stripped text is nonempty and consists only of
artifact characters; keep genuinely blank lines. -/
def artifactFilter (ls : List Line) : List Line :=
  ls.filter (fun l =>
    (pyStrip l).isEmpty || !((pyStrip l).all isArtifactChar))

/-- Collapse every run of three or more newlines to exactly two. -/
def collapseNl3 : Nat → List Char → List Char
  | 0, s => s
  | _ + 1, [] => []
  | fuel + 1, c :: cs =>
    if c = '\n' then
      (if 3 ≤ ((c :: cs).takeWhile (fun d => d = '\n')).length
       then ['\n', '\n']
       else (c :: cs).takeWhile (fun d => d = '\n'))
        ++ collapseNl3 fuel ((c :: cs).dropWhile (fun d => d = '\n'))
    else c :: collapseNl3 fuel cs

/-- final_cleanup: the closing sweep of substitutions, run in source order. -/
def finalCleanup (s : List Char) : List Char :=
  let s1 := csubLS finalEscSepM s
  let s2 := csubLS finalStarSepM s1
  let s3 := csub (litM (".was-a-p".toList)) s2
  let s4 := csub (litM (".k4w-margin".toList)) s3
  let s5 := csub (attrValM ("style".toList)) s4
  let s6 := csub (attrValM ("align".toList)) s5
  let s7 := csub (attrValM ("vertical".toList)) s6
  let s8 := csub (tagM ("center".toList)) s7
  let s9 := csub (tagM ("div".toList)) s8
  let s10 := csub (tagM ("span".toList)) s9
  let s11 := csub braceIdM s10
  let s12 := csub braceClsM s11
  let s13 := csub imgAttrM s12
  let s14 := csub (wsAttrM ("name".toList)) s13
  let s15 := csub (wsAttrM ("id".toList)) s14
  let s16 := csub underlineM s15
  let s17 := joinLines (dedupImgLines [] (splitLines s16))
  let s18 := joinLines (artifactFilter (splitLines s17))
  collapseNl3 s18.length s18

/-! ## Cleanup orchestrator, cleanup.py lines 16-79 -/

/-- The statistics mapping clean_markdown returns: its exact four keys
as the fields of a structure, each count a natural number. -/
structure CleanupStats where
  divs_removed : Nat
  spans_removed : Nat
  headers_fixed : Nat
  links_fixed : Nat
deriving DecidableEq, Repr

/-- The pipeline up to but excluding the final sweep: each pass runs if
and only if its toggle is set. -/
def cleanBeforeFinal (content : List Char) (remove_div_blocks remove_spans fix_headers
    normalize_whitespace fix_links : Bool) : List Char :=
  let r1 := if remove_div_blocks then removeDivBlocksFromContent content else (content, 0)
  let r2 := if remove_spans then removeSpanArtifacts r1.1 else (r1.1, 0)
  let r3 := if fix_headers then fixHeaderFormatting r2.1 else (r2.1, 0)
  let r4 := if fix_links then fixLinkArtifacts r3.1 else (r3.1, 0)
  if normalize_whitespace then normalizeWhitespaceContent r4.1 else r4.1

/-- clean_markdown: run the five toggleable passes in source order
(blocks, spans, headers, links, whitespace), then the unconditional
final sweep; report the four counts. -/
def clean_markdown (content : List Char) (remove_div_blocks remove_spans fix_headers
    normalize_whitespace fix_links : Bool) : List Char × CleanupStats :=
  let r1 := if remove_div_blocks then removeDivBlocksFromContent content else (content, 0)
  let r2 := if remove_spans then removeSpanArtifacts r1.1 else (r1.1, 0)
  let r3 := if fix_headers then fixHeaderFormatting r2.1 else (r2.1, 0)
  let r4 := if fix_links then fixLinkArtifacts r3.1 else (r3.1, 0)
  let c5 := if normalize_whitespace then normalizeWhitespaceContent r4.1 else r4.1
  (finalCleanup c5, ⟨r1.2, r2.2, r3.2, r4.2⟩)

/-! ## Image reference normalizer, images.py lines 19-223 -/

/-- The recognised image extensions of images.py. -/
def imageExts : List (List Char) :=
  [".jpg".toList, ".jpeg".toList, ".png".toList, ".gif".toList,
   ".webp".toList, ".svg".toList, ".bmp".toList]

/-- The parenthesis-depth scan of fix_all_image_paths: starting at depth
one, find the index of the parenthesis that closes the construct,
tracking nested parentheses rather than stopping at the first closer. -/
def parenPathEnd : Nat → Nat → List Char → Option Nat
  | _, _, [] => none
  | d, i, c :: cs =>
    if c = '(' then parenPathEnd (d + 1) (i + 1) cs
    else if c = ')' then
      (if d = 1 then some i else parenPathEnd (d - 1) (i + 1) cs)
    else parenPathEnd d (i + 1) cs

/-- The last chunk of a nonempty chunk list (the final path segment). -/
def lastPart : List (List Char) → List Char
  | [] => []
  | [x] => x
  | _ :: x :: xs => lastPart (x :: xs)

/-- ASCII lowercasing of a character list. -/
def toLowerL (l : List Char) : List Char := l.map Char.toLower

/-- os.path.splitext-style extension of a bare filename: the suffix from
the last dot, provided some earlier character is not a dot (so names
consisting only of a leading dot run have no extension). -/
def extOf (s : List Char) : List Char :=
  match (s.reverse).dropWhile (fun c => !(c = '.')) with
  | [] => []
  | _ :: before =>
    if before.any (fun c => !(c = '.')) then
      '.' :: ((s.reverse).takeWhile (fun c => !(c = '.'))).reverse
    else []

/-- Continue parsing an image construct past the alt text: the text from
the first right bracket must continue with a bracket-parenthesis pair,
then the depth-tracking scan finds the path end, which must lie
strictly past the first character. -/
def parseImagePath (altPart : Line) (afterBr : List Char) : Option (Line × List Char) :=
  match afterBr with
  | b1 :: b2 :: rest =>
    if b1 = ']' && b2 = '(' then
      match parenPathEnd 1 0 rest with
      | some pe => if 0 < pe then some (altPart, rest.take pe) else none
      | none => none
    else none
  | _ => none

/-- Parse a stripped line as an image construct, as fix_all_image_paths
does inline: "![", alt up to the first "]", "(", then the
depth-tracking scan.  Returns the alt text and the full path. -/
def parseImageLine (st : Line) : Option (Line × List Char) :=
  match st with
  | a :: b :: r =>
    if a = '!' && b = '[' then
      parseImagePath (r.takeWhile (fun c => !(c = ']')))
        (r.dropWhile (fun c => !(c = ']')))
    else none
  | _ => none

/-- Resolve the canonical filename of a path: backslashes to slashes,
final slash-separated segment, stripped, query string and fragment
suffixes removed. -/
def resolveFilename (fullPath : List Char) : List Char :=
  let parts := splitOnChar '/' (fullPath.map (fun c => if c = '\\' then '/' else c))
  let f0 := pyStrip (lastPart parts)
  (f0.takeWhile (fun c => !(c = '?'))).takeWhile (fun c => !(c = '#'))

/-- The canonical rewritten image line. -/
def canonicalImgLine (alt fn : List Char) : Line :=
  '!' :: '[' :: alt ++ ']' :: '(' :: "./images/".toList ++ fn ++ [')']

/-- The fold state of fix_all_image_paths: emitted lines, seen filenames,
whether the previous non-blank line was an image and its filename. -/
structure ImgState where
  fixed : List Line
  seen : List (List Char)
  lastWas : Bool
  lastFile : Option (List Char)
deriving DecidableEq, Repr

/-- One line step of fix_all_image_paths: an image line with a recognised
extension is dropped when it repeats the immediately preceding image
(blank lines do not intervene) or, within the first ten emitted lines,
when its filename was already seen; otherwise it is emitted in the
canonical form.  Non-image lines reset the consecutive-image state
unless blank, and are emitted unchanged. -/
def imgStep (st0 : ImgState) (line : Line) : ImgState :=
  let stripped := pyStrip line
  match parseImageLine stripped with
  | some ap =>
    (let fn := resolveFilename ap.2
     if imageExts.contains (extOf (toLowerL fn)) && !(fn.isEmpty) then
       if st0.lastWas && st0.lastFile = some fn then st0
       else if st0.seen.contains fn && decide (st0.fixed.length < 10) then st0
       else
         { fixed := st0.fixed ++ [canonicalImgLine ap.1 fn]
           seen := fn :: st0.seen
           lastWas := true
           lastFile := some fn }
     else
       { fixed := st0.fixed ++ [line]
         seen := st0.seen
         lastWas := if stripped.isEmpty then st0.lastWas else false
         lastFile := if stripped.isEmpty then st0.lastFile else none })
  | none =>
    { fixed := st0.fixed ++ [line]
      seen := st0.seen
      lastWas := if stripped.isEmpty then st0.lastWas else false
      lastFile := if stripped.isEmpty then st0.lastFile else none }

/-- fix_all_image_paths: fold the per-line step over the document lines. -/
def fixAllImagePaths (content : List Char) : List Char :=
  joinLines (((splitLines content).foldl imgStep ⟨[], [], false, none⟩).fixed)

/-- A line the normalizer treats as an image reference: its stripped
text parses as an image construct whose resolved filename has a
recognised extension and is nonempty. -/
def imgQualify (l : Line) : Bool :=
  match parseImageLine (pyStrip l) with
  | some ap =>
    imageExts.contains (extOf (toLowerL (resolveFilename ap.2)))
      && !(resolveFilename ap.2).isEmpty
  | none => false

/-- The statistics record extract_and_process_images returns. -/
structure ImageStats where
  images_found : Nat
  images_processed : Nat
  images_moved : Nat
  updated_content : List Char
deriving DecidableEq, Repr

/-- extract_and_process_images with the filesystem abstracted: whether the
images directory exists and which image files were discovered in it are
parameters, and the number of files the on-disk flatten moves is an
oracle parameter (the move loop is pure filesystem work); image
optimization is the disabled default.  When the directory does not
exist the function returns early with zero counts and the content
untouched; otherwise the content is rewritten by fix_all_image_paths. -/
def extract_and_process_images (content : List Char) (imagesDirExists : Bool)
    (imageFiles : List (List Char)) (flattenMovedCount : Nat) : ImageStats :=
  if !imagesDirExists then
    ⟨0, 0, 0, content⟩
  else if imageFiles.isEmpty then
    ⟨0, 0, 0, fixAllImagePaths content⟩
  else
    ⟨imageFiles.length, 0, flattenMovedCount, fixAllImagePaths content⟩

/-! ## Frontmatter synthesizer, converter.py lines 132-164 -/

/-- The Metadata Record the frontmatter synthesizer consumes; a missing
key of the source dictionary is none. -/
structure Metadata where
  title : Option (List Char) := none
  author : Option (List Char) := none
  publisher : Option (List Char) := none
  date : Option (List Char) := none
  language : Option (List Char) := none
  description : Option (List Char) := none
deriving DecidableEq

/-- Python truthiness of an optional string: absent or empty is falsy. -/
def pyTruthy : Option (List Char) → Option (List Char)
  | none => none
  | some [] => none
  | some (c :: cs) => some (c :: cs)

/-- Escape embedded double quotes with a backslash. -/
def escapeQuotes : List Char → List Char
  | [] => []
  | c :: cs => if c = '"' then '\\' :: '"' :: escapeQuotes cs else c :: escapeQuotes cs

/-- Collapse embedded line breaks to single spaces. -/
def collapseNlSp (l : List Char) : List Char :=
  l.map (fun c => if c = '\n' then ' ' else c)

/-- One rendered frontmatter line: name, colon, space, quoted value. -/
def quoteField (name v : List Char) : Line :=
  name ++ ": \"".toList ++ v ++ ['"']

/-- The frontmatter lines: delimiter, the present fields in source order
with the source's per-field escaping (title, author and publisher
quote-escaped; date and language verbatim; description quote-escaped
with newlines collapsed), the custom fields verbatim, delimiter. -/
def frontmatterLines (m : Metadata) (customFields : List (List Char × List Char)) :
    List Line :=
  ["---".toList]
    ++ (match pyTruthy m.title with
        | some t => [quoteField ("title".toList) (escapeQuotes t)]
        | none => [])
    ++ (match pyTruthy m.author with
        | some a => [quoteField ("author".toList) (escapeQuotes a)]
        | none => [])
    ++ (match pyTruthy m.publisher with
        | some p => [quoteField ("publisher".toList) (escapeQuotes p)]
        | none => [])
    ++ (match pyTruthy m.date with
        | some d => [quoteField ("date".toList) d]
        | none => [])
    ++ (match pyTruthy m.language with
        | some lg => [quoteField ("language".toList) lg]
        | none => [])
    ++ (match pyTruthy m.description with
        | some d => [quoteField ("description".toList) (collapseNlSp (escapeQuotes d))]
        | none => [])
    ++ customFields.map (fun kv => quoteField kv.1 kv.2)
    ++ ["---".toList]

/-- generate_frontmatter: the frontmatter lines joined with newlines. -/
def generate_frontmatter (m : Metadata) (customFields : List (List Char × List Char)) :
    List Char :=
  joinLines (frontmatterLines m customFields)

example : removeDivBlocksFromContent (":::\n \nx".toList) = (("\nx").toList, 1) := by decide

example :
    removeDivBlocksFromContent ("::: \x7b#test\x7d\nHello World\n:::".toList)
      = (("\nHello World\n").toList, 2) := by decide

example : removeDivBlocksFromContent ("::: \x7ba\nb\x7d\nc".toList) = (("\nc").toList, 1) := by
  decide

/-! ### Basic facts about the block-marker matchers -/

theorem braceSplit_cons {c : Char} (l : List Char) (h : ¬c = rbrace) :
    braceSplit (c :: l) = braceSplit l := by
  simp [braceSplit, List.dropWhile_cons, h]

theorem braceSplit_of_wsOnly {l : List Char} (h : wsOnly l = true) : braceSplit l = none := by
  induction l with
  | nil => rfl
  | cons c cs ih =>
    simp only [wsOnly, List.all_cons, Bool.and_eq_true] at h
    have hc : ¬c = rbrace := by
      intro he
      rw [he] at h
      exact absurd h.1 (by decide)
    rw [braceSplit_cons _ hc]
    exact ih h.2

theorem matchOpenTail_stuck {cur after : List Char} (t : List Line)
    (h1 : braceSplit cur = some after) (h2 : wsOnly after = false) :
    matchOpenTail cur t = none := by
  cases t with
  | nil => simp [matchOpenTail, h1, h2]
  | cons x xs => simp [matchOpenTail, h1, h2]

theorem matchOpenTail_found {cur after : List Char} (t : List Line)
    (h1 : braceSplit cur = some after) (h2 : wsOnly after = true) :
    matchOpenTail cur t = some (t.takeWhile wsOnly).length := by
  cases t with
  | nil => simp [matchOpenTail, h1, h2]
  | cons x xs => simp [matchOpenTail, h1, h2]

theorem matchOpenTail_cross {cur : List Char} {x : Line} (xs : List Line)
    (h : braceSplit cur = none) :
    matchOpenTail cur (x :: xs) = (matchOpenTail x xs).map (fun n => n + 1) := by
  simp [matchOpenTail, h]

theorem matchOpenTail_nil_of_none {cur : List Char} (h : braceSplit cur = none) :
    matchOpenTail cur [] = none := by
  simp [matchOpenTail, h]

theorem startsOpen_elim {x : Line} (h : startsOpen x = true) :
    ∃ r, x = ':' :: ':' :: ':' :: ' ' :: lbrace :: r := by
  match x with
  | [] => simp [startsOpen] at h
  | [_] => simp [startsOpen] at h
  | [_, _] => simp [startsOpen] at h
  | [_, _, _] => simp [startsOpen] at h
  | [_, _, _, _] => simp [startsOpen] at h
  | a :: b :: c :: d :: e :: r =>
    simp only [startsOpen, Bool.and_eq_true, decide_eq_true_eq] at h
    obtain ⟨⟨⟨⟨ha, hb⟩, hc⟩, hd⟩, he⟩ := h
    exact ⟨r, by rw [ha, hb, hc, hd, he]⟩

theorem isCloseMarkerLine_elim {l : Line} (h : isCloseMarkerLine l = true) :
    ∃ r, l = ':' :: ':' :: ':' :: r ∧ wsOnly r = true := by
  match l with
  | [] => simp [isCloseMarkerLine] at h
  | [_] => simp [isCloseMarkerLine] at h
  | [_, _] => simp [isCloseMarkerLine] at h
  | a :: b :: c :: r =>
    simp only [isCloseMarkerLine, Bool.and_eq_true, decide_eq_true_eq] at h
    obtain ⟨⟨⟨ha, hb⟩, hc⟩, hw⟩ := h
    exact ⟨r, by rw [ha, hb, hc], hw⟩

theorem matchOpenTail_startsOpen {x : Line} (xs : List Line) (h : startsOpen x = true) :
    matchOpenTail x xs = matchOpenTail (x.drop 5) xs := by
  obtain ⟨r, hr⟩ := startsOpen_elim h
  subst hr
  have hb : braceSplit (':' :: ':' :: ':' :: ' ' :: lbrace :: r) = braceSplit r := by
    rw [braceSplit_cons _ (by decide), braceSplit_cons _ (by decide),
      braceSplit_cons _ (by decide), braceSplit_cons _ (by decide),
      braceSplit_cons _ (by decide)]
  have hdrop : (':' :: ':' :: ':' :: ' ' :: lbrace :: r).drop 5 = r := rfl
  rw [hdrop]
  cases xs with
  | nil => simp only [matchOpenTail, hb]
  | cons y ys => simp only [matchOpenTail, hb]

theorem matchO_some {l : Line} {t : List Line} {n : Nat} (h : matchO (l :: t) = some n) :
    startsOpen l = true ∧ ∃ m, matchOpenTail (l.drop 5) t = some m ∧ n = m + 1 := by
  by_cases hs : startsOpen l = true
  · refine ⟨hs, ?_⟩
    rw [matchO, if_pos hs] at h
    cases hm : matchOpenTail (l.drop 5) t with
    | none => rw [hm] at h; simp at h
    | some m => rw [hm] at h; simp at h; exact ⟨m, rfl, h.symm⟩
  · rw [matchO, if_neg hs] at h
    simp at h

theorem matchO_none_tail {l : Line} {t : List Line} (hs : startsOpen l = true)
    (h : matchO (l :: t) = none) : matchOpenTail (l.drop 5) t = none := by
  rw [matchO, if_pos hs] at h
  cases hm : matchOpenTail (l.drop 5) t with
  | none => rfl
  | some m => rw [hm] at h; simp at h

theorem matchO_of_tail {l : Line} {t : List Line} (h : matchOpenTail (l.drop 5) t = none) :
    matchO (l :: t) = none := by
  rw [matchO]
  by_cases hs : startsOpen l = true
  · rw [if_pos hs, h]; rfl
  · rw [if_neg hs]

theorem matchO_nil_cons (t : List Line) : matchO ([] :: t) = none := by
  rw [matchO, if_neg]
  intro h
  simp [startsOpen] at h

theorem braceSplit_of_close {l : Line} (h : isCloseMarkerLine l = true) :
    braceSplit l = none := by
  obtain ⟨r, hl, hw⟩ := isCloseMarkerLine_elim h
  subst hl
  rw [braceSplit_cons _ (by decide), braceSplit_cons _ (by decide),
    braceSplit_cons _ (by decide)]
  exact braceSplit_of_wsOnly hw

theorem matchC_some_elim {l : Line} {t : List Line} {n : Nat} (h : matchC (l :: t) = some n) :
    isCloseMarkerLine l = true ∧ braceSplit l = none ∧
      n = (t.takeWhile wsOnly).length + 1 := by
  by_cases hc : isCloseMarkerLine l = true
  · refine ⟨hc, braceSplit_of_close hc, ?_⟩
    rw [matchC, if_pos hc] at h
    simpa using h.symm
  · rw [matchC, if_neg hc] at h
    simp at h

theorem matchC_none_of_not_marker {l : Line} (t : List Line)
    (h : isCloseMarkerLine l = false) : matchC (l :: t) = none := by
  rw [matchC, h]
  rfl

theorem matchC_none_elim {l : Line} {t : List Line} (h : matchC (l :: t) = none) :
    isCloseMarkerLine l = false := by
  by_cases hc : isCloseMarkerLine l = true
  · rw [matchC, if_pos hc] at h; simp at h
  · simpa using hc

theorem matchC_of_marker {l : Line} (t : List Line) (h : isCloseMarkerLine l = true) :
    matchC (l :: t) = some ((t.takeWhile wsOnly).length + 1) := by
  rw [matchC, if_pos h]

theorem matchO_some_pos {ls : List Line} {n : Nat} (h : matchO ls = some n) : 1 ≤ n := by
  cases ls with
  | nil => simp [matchO] at h
  | cons l t =>
    obtain ⟨-, m, -, hn⟩ := matchO_some h
    omega

theorem matchC_some_pos {ls : List Line} {n : Nat} (h : matchC ls = some n) : 1 ≤ n := by
  cases ls with
  | nil => simp [matchC] at h
  | cons l t =>
    obtain ⟨-, -, hn⟩ := matchC_some_elim h
    omega

theorem isOpenMarkerLine_elim {l : Line} (h : isOpenMarkerLine l = true) :
    startsOpen l = true ∧ ∃ after, braceSplit (l.drop 5) = some after ∧ wsOnly after = true := by
  simp only [isOpenMarkerLine, Bool.and_eq_true] at h
  refine ⟨h.1, ?_⟩
  cases hb : braceSplit (l.drop 5) with
  | none => rw [hb] at h; simp at h
  | some after => rw [hb] at h; exact ⟨after, rfl, h.2⟩

theorem matchO_of_marker {l : Line} (t : List Line) (h : isOpenMarkerLine l = true) :
    matchO (l :: t) = some ((t.takeWhile wsOnly).length + 1) := by
  obtain ⟨hs, after, hb, hw⟩ := isOpenMarkerLine_elim h
  rw [matchO, if_pos hs, matchOpenTail_found t hb hw]
  rfl

/-! ### Preservation lemmas: the substitutions create no new marker matches -/

theorem subMAux_nil (m : List Line → Option Nat) (fuel : Nat) : subMAux m fuel [] = [] := by
  cases fuel <;> rfl

theorem matchOpenTail_drop_ws :
    ∀ (xs : List Line) (cur : List Char), braceSplit cur = none →
      matchOpenTail cur xs = none →
      matchOpenTail [] (xs.drop (xs.takeWhile wsOnly).length) = none := by
  intro xs
  induction xs with
  | nil =>
    intro cur h1 h2
    simpa using @matchOpenTail_nil_of_none [] rfl
  | cons y ys ih =>
    intro cur h1 h2
    rw [matchOpenTail_cross ys h1] at h2
    have hy : matchOpenTail y ys = none := by
      cases hm : matchOpenTail y ys with
      | none => rfl
      | some m => rw [hm] at h2; simp at h2
    by_cases hw : wsOnly y = true
    · rw [List.takeWhile_cons, if_pos hw]
      simp only [List.length_cons, List.drop_succ_cons]
      exact ih y (braceSplit_of_wsOnly hw) hy
    · rw [List.takeWhile_cons, if_neg hw]
      simp only [List.length_nil, List.drop_zero]
      rw [@matchOpenTail_cross [] y ys rfl, hy]
      rfl

theorem matchOpenTail_subO :
    ∀ (t : List Line) (fuel : Nat) (cur : List Char), matchOpenTail cur t = none →
      matchOpenTail cur (subMAux matchO fuel t) = none := by
  intro t
  induction t with
  | nil =>
    intro fuel cur h
    rw [subMAux_nil]
    exact h
  | cons x xs ih =>
    intro fuel cur h
    cases fuel with
    | zero => exact h
    | succ fuel =>
      cases hm : matchO (x :: xs) with
      | some n =>
        rw [subMAux]
        rw [hm]
        cases hb : braceSplit cur with
        | some after =>
          have hw : wsOnly after = false := by
            by_cases hw : wsOnly after = true
            · rw [matchOpenTail_found (x :: xs) hb hw] at h; simp at h
            · simpa using hw
          exact matchOpenTail_stuck _ hb hw
        | none =>
          exfalso
          obtain ⟨hs, m, hmt, -⟩ := matchO_some hm
          rw [matchOpenTail_cross xs hb] at h
          have hx : matchOpenTail x xs = none := by
            cases hmx : matchOpenTail x xs with
            | none => rfl
            | some k => rw [hmx] at h; simp at h
          rw [matchOpenTail_startsOpen xs hs] at hx
          rw [hx] at hmt
          exact Option.noConfusion hmt
      | none =>
        rw [subMAux]
        rw [hm]
        cases hb : braceSplit cur with
        | some after =>
          have hw : wsOnly after = false := by
            by_cases hw : wsOnly after = true
            · rw [matchOpenTail_found (x :: xs) hb hw] at h; simp at h
            · simpa using hw
          exact matchOpenTail_stuck _ hb hw
        | none =>
          rw [matchOpenTail_cross xs hb] at h
          have hx : matchOpenTail x xs = none := by
            cases hmx : matchOpenTail x xs with
            | none => rfl
            | some k => rw [hmx] at h; simp at h
          rw [matchOpenTail_cross _ hb, ih fuel x hx]
          rfl

theorem matchOpenTail_subC :
    ∀ (fuel : Nat) (t : List Line) (cur : List Char), matchOpenTail cur t = none →
      matchOpenTail cur (subMAux matchC fuel t) = none := by
  intro fuel
  induction fuel with
  | zero => intro t cur h; exact h
  | succ fuel ih =>
    intro t cur h
    cases t with
    | nil => rw [subMAux_nil]; exact h
    | cons x xs =>
      cases hm : matchC (x :: xs) with
      | some n =>
        obtain ⟨hcl, hbx, hn⟩ := matchC_some_elim hm
        rw [subMAux]
        rw [hm]
        cases hb : braceSplit cur with
        | some after =>
          have hw : wsOnly after = false := by
            by_cases hw : wsOnly after = true
            · rw [matchOpenTail_found (x :: xs) hb hw] at h; simp at h
            · simpa using hw
          exact matchOpenTail_stuck _ hb hw
        | none =>
          rw [matchOpenTail_cross xs hb] at h
          have hx : matchOpenTail x xs = none := by
            cases hmx : matchOpenTail x xs with
            | none => rfl
            | some k => rw [hmx] at h; simp at h
          have hdropped : matchOpenTail [] (xs.drop (xs.takeWhile wsOnly).length) = none :=
            matchOpenTail_drop_ws xs x hbx hx
          have hrest : (x :: xs).drop n = xs.drop (xs.takeWhile wsOnly).length := by
            rw [hn, List.drop_succ_cons]
          rw [@matchOpenTail_cross cur _ _ hb]
          rw [hrest, ih (xs.drop (xs.takeWhile wsOnly).length) [] hdropped]
          rfl
      | none =>
        rw [subMAux]
        rw [hm]
        cases hb : braceSplit cur with
        | some after =>
          have hw : wsOnly after = false := by
            by_cases hw : wsOnly after = true
            · rw [matchOpenTail_found (x :: xs) hb hw] at h; simp at h
            · simpa using hw
          exact matchOpenTail_stuck _ hb hw
        | none =>
          rw [matchOpenTail_cross xs hb] at h
          have hx : matchOpenTail x xs = none := by
            cases hmx : matchOpenTail x xs with
            | none => rfl
            | some k => rw [hmx] at h; simp at h
          rw [matchOpenTail_cross _ hb, ih xs x hx]
          rfl

theorem noOpen_subO :
    ∀ (fuel : Nat) (ls : List Line), ls.length ≤ fuel →
      ∀ n, matchO ((subMAux matchO fuel ls).drop n) = none := by
  intro fuel
  induction fuel with
  | zero =>
    intro ls hl n
    have : ls = [] := List.length_eq_zero.mp (Nat.le_zero.mp hl)
    subst this
    cases n <;> rfl
  | succ fuel ih =>
    intro ls hl n
    cases ls with
    | nil => cases n <;> rfl
    | cons l t =>
      cases hm : matchO (l :: t) with
      | some m =>
        rw [subMAux]
        rw [hm]
        have hpos : 1 ≤ m := matchO_some_pos hm
        have hlen : ((l :: t).drop m).length ≤ fuel := by
          rw [List.length_drop]
          simp only [List.length_cons] at hl ⊢
          omega
        cases n with
        | zero => rw [List.drop_zero]; exact matchO_nil_cons _
        | succ n => rw [List.drop_succ_cons]; exact ih _ hlen n
      | none =>
        rw [subMAux]
        rw [hm]
        have hlen : t.length ≤ fuel := by
          simp only [List.length_cons] at hl
          omega
        cases n with
        | zero =>
          rw [List.drop_zero]
          by_cases hs : startsOpen l = true
          · exact matchO_of_tail (matchOpenTail_subO t fuel _ (matchO_none_tail hs hm))
          · rw [matchO, if_neg hs]
        | succ n => rw [List.drop_succ_cons]; exact ih _ hlen n

theorem noOpen_subC :
    ∀ (fuel : Nat) (ls : List Line),
      (∀ n, matchO (ls.drop n) = none) →
      ∀ n, matchO ((subMAux matchC fuel ls).drop n) = none := by
  intro fuel
  induction fuel with
  | zero => intro ls h n; exact h n
  | succ fuel ih =>
    intro ls h n
    cases ls with
    | nil => cases n <;> rfl
    | cons l t =>
      cases hm : matchC (l :: t) with
      | some m =>
        rw [subMAux]
        rw [hm]
        have hrest : ∀ k, matchO (((l :: t).drop m).drop k) = none := by
          intro k
          rw [List.drop_drop]
          exact h (m + k)
        cases n with
        | zero => rw [List.drop_zero]; exact matchO_nil_cons _
        | succ n => rw [List.drop_succ_cons]; exact ih _ hrest n
      | none =>
        rw [subMAux]
        rw [hm]
        have ht : ∀ k, matchO (t.drop k) = none := by
          intro k
          have := h (k + 1)
          rwa [List.drop_succ_cons] at this
        have h0 : matchO (l :: t) = none := by
          have := h 0
          rwa [List.drop_zero] at this
        cases n with
        | zero =>
          rw [List.drop_zero]
          by_cases hs : startsOpen l = true
          · exact matchO_of_tail (matchOpenTail_subC fuel t _ (matchO_none_tail hs h0))
          · rw [matchO, if_neg hs]
        | succ n => rw [List.drop_succ_cons]; exact ih _ ht n

theorem noClose_subC :
    ∀ (fuel : Nat) (ls : List Line), ls.length ≤ fuel →
      ∀ n, matchC ((subMAux matchC fuel ls).drop n) = none := by
  intro fuel
  induction fuel with
  | zero =>
    intro ls hl n
    have : ls = [] := List.length_eq_zero.mp (Nat.le_zero.mp hl)
    subst this
    cases n <;> rfl
  | succ fuel ih =>
    intro ls hl n
    cases ls with
    | nil => cases n <;> rfl
    | cons l t =>
      cases hm : matchC (l :: t) with
      | some m =>
        rw [subMAux]
        rw [hm]
        have hpos : 1 ≤ m := matchC_some_pos hm
        have hlen : ((l :: t).drop m).length ≤ fuel := by
          rw [List.length_drop]
          simp only [List.length_cons] at hl ⊢
          omega
        cases n with
        | zero => rw [List.drop_zero]; exact matchC_none_of_not_marker _ rfl
        | succ n => rw [List.drop_succ_cons]; exact ih _ hlen n
      | none =>
        rw [subMAux]
        rw [hm]
        have hlen : t.length ≤ fuel := by
          simp only [List.length_cons] at hl
          omega
        cases n with
        | zero => rw [List.drop_zero]; exact matchC_none_of_not_marker _ (matchC_none_elim hm)
        | succ n => rw [List.drop_succ_cons]; exact ih _ hlen n

theorem subMAux_of_none (m : List Line → Option Nat) :
    ∀ (fuel : Nat) (ls : List Line), (∀ n, m (ls.drop n) = none) →
      subMAux m fuel ls = ls := by
  intro fuel
  induction fuel with
  | zero => intro ls _; rfl
  | succ fuel ih =>
    intro ls h
    cases ls with
    | nil => rfl
    | cons l t =>
      have h0 : m (l :: t) = none := by
        have := h 0
        rwa [List.drop_zero] at this
      rw [subMAux]
      rw [h0]
      rw [ih t (fun n => by have := h (n + 1); rwa [List.drop_succ_cons] at this)]

theorem countMAux_of_none (m : List Line → Option Nat) :
    ∀ (fuel : Nat) (ls : List Line), (∀ n, m (ls.drop n) = none) →
      countMAux m fuel ls = 0 := by
  intro fuel
  induction fuel with
  | zero => intro ls _; rfl
  | succ fuel ih =>
    intro ls h
    cases ls with
    | nil => rfl
    | cons l t =>
      have h0 : m (l :: t) = none := by
        have := h 0
        rwa [List.drop_zero] at this
      rw [countMAux]
      rw [h0]
      exact ih t (fun n => by have := h (n + 1); rwa [List.drop_succ_cons] at this)

/-! ### Structural lemmas: output lines, line splitting and joining -/

theorem mem_subMAux (m : List Line → Option Nat) :
    ∀ (fuel : Nat) (ls : List Line) (x : Line), x ∈ subMAux m fuel ls →
      x = [] ∨ x ∈ ls := by
  intro fuel
  induction fuel with
  | zero => intro ls x hx; exact Or.inr hx
  | succ fuel ih =>
    intro ls x hx
    cases ls with
    | nil => rw [subMAux_nil] at hx; simp at hx
    | cons l t =>
      rw [subMAux] at hx
      cases hm : m (l :: t) with
      | some n =>
        rw [hm] at hx
        rcases List.mem_cons.mp hx with h | h
        · exact Or.inl h
        · rcases ih _ _ h with h2 | h2
          · exact Or.inl h2
          · exact Or.inr (List.drop_subset _ _ h2)
      | none =>
        rw [hm] at hx
        rcases List.mem_cons.mp hx with h | h
        · exact Or.inr (h ▸ List.mem_cons_self _ _)
        · rcases ih _ _ h with h2 | h2
          · exact Or.inl h2
          · exact Or.inr (List.mem_cons_of_mem _ h2)

theorem subMAux_ne_nil (m : List Line → Option Nat) :
    ∀ (fuel : Nat) (ls : List Line), ls ≠ [] → subMAux m fuel ls ≠ [] := by
  intro fuel ls hne
  cases fuel with
  | zero => exact hne
  | succ fuel =>
    cases ls with
    | nil => exact hne
    | cons l t =>
      rw [subMAux]
      cases m (l :: t) <;> simp

theorem splitOnChar_ne_nil (sep : Char) : ∀ s, splitOnChar sep s ≠ [] := by
  intro s
  cases s with
  | nil => simp [splitOnChar]
  | cons c cs =>
    rw [splitOnChar]
    by_cases h : c = sep
    · simp [h]
    · rw [if_neg h]
      cases splitOnChar sep cs <;> simp

theorem not_mem_splitOnChar (sep : Char) :
    ∀ (s : List Char) (l : List Char), l ∈ splitOnChar sep s → sep ∉ l := by
  intro s
  induction s with
  | nil =>
    intro l hl
    simp [splitOnChar] at hl
    simp [hl]
  | cons c cs ih =>
    intro l hl
    rw [splitOnChar] at hl
    by_cases h : c = sep
    · rw [if_pos h] at hl
      rcases List.mem_cons.mp hl with h2 | h2
      · simp [h2]
      · exact ih _ h2
    · rw [if_neg h] at hl
      cases hsp : splitOnChar sep cs with
      | nil => exact absurd hsp (splitOnChar_ne_nil sep cs)
      | cons m ms =>
        rw [hsp] at hl
        rcases List.mem_cons.mp hl with h2 | h2
        · subst h2
          intro hmem
          rcases List.mem_cons.mp hmem with h3 | h3
          · exact h h3.symm
          · exact ih m (hsp ▸ List.mem_cons_self _ _) h3
        · exact ih _ (hsp ▸ List.mem_cons_of_mem _ h2)

theorem splitOnChar_no_sep (sep : Char) :
    ∀ (s : List Char), sep ∉ s → splitOnChar sep s = [s] := by
  intro s
  induction s with
  | nil => intro _; rfl
  | cons c cs ih =>
    intro h
    have hc : ¬c = sep := fun he => h (he ▸ List.mem_cons_self _ _)
    rw [splitOnChar, if_neg hc, ih (fun hm => h (List.mem_cons_of_mem _ hm))]

theorem splitOnChar_append (sep : Char) :
    ∀ (l rest : List Char), sep ∉ l →
      splitOnChar sep (l ++ sep :: rest) = l :: splitOnChar sep rest := by
  intro l
  induction l with
  | nil =>
    intro rest _
    simp [splitOnChar]
  | cons c cs ih =>
    intro rest h
    have hc : ¬c = sep := fun he => h (he ▸ List.mem_cons_self _ _)
    rw [List.cons_append, splitOnChar, if_neg hc,
      ih rest (fun hm => h (List.mem_cons_of_mem _ hm))]

theorem splitLines_joinLines :
    ∀ (ls : List Line), ls ≠ [] → (∀ l ∈ ls, '\n' ∉ l) →
      splitLines (joinLines ls) = ls := by
  intro ls
  induction ls with
  | nil => intro h _; exact absurd rfl h
  | cons l t ih =>
    intro _ hnl
    cases t with
    | nil =>
      show splitOnChar '\n' (joinLines [l]) = [l]
      rw [joinLines]
      exact splitOnChar_no_sep _ _ (hnl l (List.mem_cons_self _ _))
    | cons l2 t2 =>
      show splitOnChar '\n' (joinLines (l :: l2 :: t2)) = l :: l2 :: t2
      rw [joinLines]
      rw [splitOnChar_append _ _ _ (hnl l (List.mem_cons_self _ _))]
      have h2 := ih (List.cons_ne_nil _ _) (fun x hx => hnl x (List.mem_cons_of_mem _ hx))
      rw [splitLines] at h2
      rw [h2]

theorem exists_drop_of_mem {α : Type} :
    ∀ {xs : List α} {x : α}, x ∈ xs → ∃ n t, xs.drop n = x :: t := by
  intro xs
  induction xs with
  | nil => intro x hx; simp at hx
  | cons y ys ih =>
    intro x hx
    rcases List.mem_cons.mp hx with h | h
    · exact ⟨0, ys, by rw [h]; rfl⟩
    · obtain ⟨n, t, ht⟩ := ih h
      exact ⟨n + 1, t, by rwa [List.drop_succ_cons]⟩

theorem take_takeWhile_len {α : Type} (p : α → Bool) :
    ∀ (l : List α), l.take (l.takeWhile p).length = l.takeWhile p := by
  intro l
  induction l with
  | nil => rfl
  | cons c cs ih =>
    rw [List.takeWhile_cons]
    by_cases h : p c = true
    · rw [if_pos h, List.length_cons, List.take_succ_cons, ih]
    · rw [if_neg h]
      rfl

theorem wsOnly_of_mem_takeWhile :
    ∀ {l : List Line} {x : Line}, x ∈ l.takeWhile wsOnly → wsOnly x = true := by
  intro l
  induction l with
  | nil => intro x hx; simp at hx
  | cons c cs ih =>
    intro x hx
    rw [List.takeWhile_cons] at hx
    by_cases h : wsOnly c = true
    · rw [if_pos h] at hx
      rcases List.mem_cons.mp hx with h2 | h2
      · exact h2 ▸ h
      · exact ih h2
    · rw [if_neg h] at hx
      simp at hx

/-! ### Lines that the block-wrapper pass keeps -/

theorem keep_subO :
    ∀ (fuel : Nat) (ls : List Line) (x : Line), ls.length ≤ fuel →
      (∀ l ∈ ls, startsOpen l = true → isOpenMarkerLine l = true) →
      x ∈ ls → wsOnly x = false → isOpenMarkerLine x = false →
      x ∈ subMAux matchO fuel ls := by
  intro fuel
  induction fuel with
  | zero =>
    intro ls x hl _ hx _ _
    have : ls = [] := List.length_eq_zero.mp (Nat.le_zero.mp hl)
    subst this
    simp at hx
  | succ fuel ih =>
    intro ls x hl hg hx hws hopen
    cases ls with
    | nil => simp at hx
    | cons l t =>
      cases hm : matchO (l :: t) with
      | some n =>
        obtain ⟨hs, m, hmt, hn⟩ := matchO_some hm
        have hmarker : isOpenMarkerLine l = true := hg l (List.mem_cons_self _ _) hs
        obtain ⟨-, after, hb, hwafter⟩ := isOpenMarkerLine_elim hmarker
        rw [matchOpenTail_found t hb hwafter] at hmt
        have hmk : m = (t.takeWhile wsOnly).length := by
          injection hmt with h
          exact h.symm
        rw [subMAux]
        rw [hm]
        have hxt : x ∈ t := by
          rcases List.mem_cons.mp hx with h | h
          · rw [h] at hopen
            rw [hmarker] at hopen
            exact absurd hopen (by simp)
          · exact h
        have hxdrop : x ∈ t.drop (t.takeWhile wsOnly).length := by
          have hsplit2 := List.take_append_drop (t.takeWhile wsOnly).length t
          rcases List.mem_append.mp (by rw [hsplit2]; exact hxt) with h | h
          · rw [take_takeWhile_len] at h
            rw [wsOnly_of_mem_takeWhile h] at hws
            exact absurd hws (by simp)
          · exact h
        have hrest : (l :: t).drop n = t.drop (t.takeWhile wsOnly).length := by
          rw [hn, hmk, List.drop_succ_cons]
        have hlen : ((l :: t).drop n).length ≤ fuel := by
          rw [List.length_drop]
          have := matchO_some_pos hm
          simp only [List.length_cons] at hl ⊢
          omega
        refine List.mem_cons_of_mem _ ?_
        refine ih _ _ hlen ?_ (hrest ▸ hxdrop) hws hopen
        intro l2 hl2 hs2
        exact hg l2 (List.drop_subset _ _ hl2) hs2
      | none =>
        rw [subMAux]
        rw [hm]
        rcases List.mem_cons.mp hx with h | h
        · exact h ▸ List.mem_cons_self _ _
        · refine List.mem_cons_of_mem _ ?_
          have hlen : t.length ≤ fuel := by
            simp only [List.length_cons] at hl
            omega
          exact ih _ _ hlen
            (fun l2 hl2 hs2 => hg l2 (List.mem_cons_of_mem _ hl2) hs2) h hws hopen

theorem keep_subC :
    ∀ (fuel : Nat) (ls : List Line) (x : Line), ls.length ≤ fuel →
      x ∈ ls → wsOnly x = false → isCloseMarkerLine x = false →
      x ∈ subMAux matchC fuel ls := by
  intro fuel
  induction fuel with
  | zero =>
    intro ls x hl hx _ _
    have : ls = [] := List.length_eq_zero.mp (Nat.le_zero.mp hl)
    subst this
    simp at hx
  | succ fuel ih =>
    intro ls x hl hx hws hclose
    cases ls with
    | nil => simp at hx
    | cons l t =>
      cases hm : matchC (l :: t) with
      | some n =>
        obtain ⟨hcl, -, hn⟩ := matchC_some_elim hm
        rw [subMAux]
        rw [hm]
        have hxt : x ∈ t := by
          rcases List.mem_cons.mp hx with h | h
          · rw [h] at hclose
            rw [hcl] at hclose
            exact absurd hclose (by simp)
          · exact h
        have hxdrop : x ∈ t.drop (t.takeWhile wsOnly).length := by
          have hsplit2 := List.take_append_drop (t.takeWhile wsOnly).length t
          rcases List.mem_append.mp (by rw [hsplit2]; exact hxt) with h | h
          · rw [take_takeWhile_len] at h
            rw [wsOnly_of_mem_takeWhile h] at hws
            exact absurd hws (by simp)
          · exact h
        have hrest : (l :: t).drop n = t.drop (t.takeWhile wsOnly).length := by
          rw [hn, List.drop_succ_cons]
        have hlen : ((l :: t).drop n).length ≤ fuel := by
          rw [List.length_drop]
          have := matchC_some_pos hm
          simp only [List.length_cons] at hl ⊢
          omega
        exact List.mem_cons_of_mem _ (ih _ _ hlen (hrest ▸ hxdrop) hws hclose)
      | none =>
        rw [subMAux]
        rw [hm]
        rcases List.mem_cons.mp hx with h | h
        · exact h ▸ List.mem_cons_self _ _
        · have hlen : t.length ≤ fuel := by
            simp only [List.length_cons] at hl
            omega
          exact List.mem_cons_of_mem _ (ih _ _ hlen h hws hclose)

/-! ### No marker line survives the block-wrapper pass -/

theorem isOpen_false_of_noO {ls : List Line}
    (h : ∀ n, matchO (ls.drop n) = none) :
    ∀ x ∈ ls, isOpenMarkerLine x = false := by
  intro x hx
  obtain ⟨n, t, ht⟩ := exists_drop_of_mem hx
  by_cases hop : isOpenMarkerLine x = true
  · have := h n
    rw [ht, matchO_of_marker t hop] at this
    simp at this
  · simpa using hop

theorem isClose_false_of_noC {ls : List Line}
    (h : ∀ n, matchC (ls.drop n) = none) :
    ∀ x ∈ ls, isCloseMarkerLine x = false := by
  intro x hx
  obtain ⟨n, t, ht⟩ := exists_drop_of_mem hx
  by_cases hcl : isCloseMarkerLine x = true
  · have := h n
    rw [ht, matchC_of_marker t hcl] at this
    simp at this
  · simpa using hcl

theorem removeDiv_out_ne_nil (c : List Char) :
    subMAux matchC
        (subMAux matchO (splitLines c).length (splitLines c)).length
        (subMAux matchO (splitLines c).length (splitLines c)) ≠ [] :=
  subMAux_ne_nil _ _ _ (subMAux_ne_nil _ _ _ (splitOnChar_ne_nil '\n' c))

theorem removeDiv_out_no_nl (c : List Char) :
    ∀ l ∈ subMAux matchC
        (subMAux matchO (splitLines c).length (splitLines c)).length
        (subMAux matchO (splitLines c).length (splitLines c)), '\n' ∉ l := by
  intro l hl
  rcases mem_subMAux _ _ _ _ hl with h | h
  · rw [h]; simp
  · rcases mem_subMAux _ _ _ _ h with h2 | h2
    · rw [h2]; simp
    · exact not_mem_splitOnChar '\n' c l h2

theorem removeDiv_split (c : List Char) :
    splitLines (removeDivBlocksFromContent c).1
      = subMAux matchC
          (subMAux matchO (splitLines c).length (splitLines c)).length
          (subMAux matchO (splitLines c).length (splitLines c)) :=
  splitLines_joinLines _ (removeDiv_out_ne_nil c) (removeDiv_out_no_nl c)

theorem removeDiv_out_noO (c : List Char) :
    ∀ n, matchO ((splitLines (removeDivBlocksFromContent c).1).drop n) = none := by
  rw [removeDiv_split]
  exact noOpen_subC _ _ (noOpen_subO _ _ le_rfl)

theorem removeDiv_out_noC (c : List Char) :
    ∀ n, matchC ((splitLines (removeDivBlocksFromContent c).1).drop n) = none := by
  rw [removeDiv_split]
  exact noClose_subC _ _ le_rfl

theorem joinLines_cons_cons (c : Char) (l : Line) (ls : List Line) :
    joinLines ((c :: l) :: ls) = c :: joinLines (l :: ls) := by
  cases ls with
  | nil => rfl
  | cons l2 ls2 => rfl

theorem joinLines_splitLines : ∀ s : List Char, joinLines (splitLines s) = s := by
  intro s
  induction s with
  | nil => rfl
  | cons c cs ih =>
    show joinLines (splitOnChar '\n' (c :: cs)) = c :: cs
    rw [splitOnChar]
    by_cases h : c = '\n'
    · rw [if_pos h]
      cases hsp : splitOnChar '\n' cs with
      | nil => exact absurd hsp (splitOnChar_ne_nil '\n' cs)
      | cons l ls =>
        show joinLines ([] :: l :: ls) = c :: cs
        rw [joinLines]
        rw [h]
        rw [List.nil_append]
        have : joinLines (l :: ls) = cs := by rw [← hsp]; exact ih
        rw [this]
    · rw [if_neg h]
      cases hsp : splitOnChar '\n' cs with
      | nil => exact absurd hsp (splitOnChar_ne_nil '\n' cs)
      | cons l ls =>
        rw [joinLines_cons_cons]
        have : joinLines (l :: ls) = cs := by rw [← hsp]; exact ih
        rw [this]

/-! ### The span pass leaves unbalanced attribute syntax alone -/

theorem untilRBrace_none {r : List Char} (h : rbrace ∉ r) : untilRBrace r = none := by
  have hd : r.dropWhile (fun c => !(c = rbrace)) = [] := by
    rw [List.dropWhile_eq_nil_iff]
    intro x hx
    have hne : x ≠ rbrace := fun he => h (he ▸ hx)
    simp [hne]
  rw [untilRBrace, hd]

theorem spanM1_none {s : List Char} (h : rbrace ∉ s) : spanM1 s = none := by
  match s with
  | [] => rfl
  | [a] => rfl
  | [a, b] => rfl
  | a :: b :: c :: r =>
    rw [spanM1]
    by_cases hc : (a = '[' && b = ']' && c = lbrace) = true
    · rw [if_pos hc]
      rw [untilRBrace_none (fun hx => h (List.mem_cons_of_mem _
        (List.mem_cons_of_mem _ (List.mem_cons_of_mem _ hx))))]
      rfl
    · rw [if_neg hc]

theorem spanM2_none {s : List Char} (h : rbrace ∉ s) : spanM2 s = none := by
  match s with
  | [] => rfl
  | a :: r =>
    rw [spanM2]
    by_cases ha : (a = '[' : Prop)
    · rw [if_pos ha]
      have hr : rbrace ∉ r.dropWhile isWsChar := fun hx =>
        h (List.mem_cons_of_mem _ ((List.dropWhile_sublist _).subset hx))
      cases hdw : r.dropWhile isWsChar with
      | nil => rfl
      | cons b r1 =>
        cases r1 with
        | nil => rfl
        | cons c r2 =>
          rw [hdw] at hr
          have hun : untilRBrace r2 = none :=
            untilRBrace_none (fun hx => hr (List.mem_cons_of_mem _
              (List.mem_cons_of_mem _ hx)))
          simp [hun]
    · rw [if_neg ha]

theorem csub_span1_id : ∀ (fuel : Nat) (s : List Char), rbrace ∉ s →
    csubAux spanM1 fuel s = s := by
  intro fuel
  induction fuel with
  | zero => intro s _; rfl
  | succ fuel ih =>
    intro s h
    cases s with
    | nil => rfl
    | cons c cs =>
      rw [csubAux]
      rw [spanM1_none h]
      rw [ih cs (fun hm => h (List.mem_cons_of_mem _ hm))]

theorem csub_span2_id : ∀ (fuel : Nat) (s : List Char), rbrace ∉ s →
    csubAux spanM2 fuel s = s := by
  intro fuel
  induction fuel with
  | zero => intro s _; rfl
  | succ fuel ih =>
    intro s h
    cases s with
    | nil => rfl
    | cons c cs =>
      rw [csubAux]
      rw [spanM2_none h]
      rw [ih cs (fun hm => h (List.mem_cons_of_mem _ hm))]

theorem ccount_span1_zero : ∀ (fuel : Nat) (s : List Char), rbrace ∉ s →
    ccountAux spanM1 fuel s = 0 := by
  intro fuel
  induction fuel with
  | zero => intro s _; rfl
  | succ fuel ih =>
    intro s h
    cases s with
    | nil => rfl
    | cons c cs =>
      rw [ccountAux]
      rw [spanM1_none h]
      exact ih cs (fun hm => h (List.mem_cons_of_mem _ hm))

theorem ccount_span2_zero : ∀ (fuel : Nat) (s : List Char), rbrace ∉ s →
    ccountAux spanM2 fuel s = 0 := by
  intro fuel
  induction fuel with
  | zero => intro s _; rfl
  | succ fuel ih =>
    intro s h
    cases s with
    | nil => rfl
    | cons c cs =>
      rw [ccountAux]
      rw [spanM2_none h]
      exact ih cs (fun hm => h (List.mem_cons_of_mem _ hm))

theorem removeSpan_skip {s : List Char} (h : rbrace ∉ s) :
    removeSpanArtifacts s = (s, 0) := by
  have h1 : csub spanM1 s = s := csub_span1_id s.length s h
  have h2 : csub spanM2 s = s := csub_span2_id s.length s h
  have h3 : ccount spanM1 s = 0 := ccount_span1_zero s.length s h
  have h4 : ccount spanM2 s = 0 := ccount_span2_zero s.length s h
  show (csub spanM2 (csub spanM1 s), ccount spanM1 s + ccount spanM2 (csub spanM1 s)) = (s, 0)
  rw [h1, h2, h3, h4]

/-! ### The image normalizer: every retained image line is canonical -/

theorem pyStrip_subset {l : Line} : ∀ x ∈ pyStrip l, x ∈ l := by
  intro x hx
  rw [pyStrip, List.mem_reverse] at hx
  have h1 := (List.dropWhile_sublist _).subset hx
  rw [List.mem_reverse] at h1
  exact (List.dropWhile_sublist _).subset h1

theorem mem_of_mem_splitOnChar (sep : Char) :
    ∀ (s l : List Char), l ∈ splitOnChar sep s → ∀ x ∈ l, x ∈ s := by
  intro s
  induction s with
  | nil =>
    intro l hl x hx
    simp [splitOnChar] at hl
    rw [hl] at hx
    simp at hx
  | cons c cs ih =>
    intro l hl x hx
    rw [splitOnChar] at hl
    by_cases h : c = sep
    · rw [if_pos h] at hl
      rcases List.mem_cons.mp hl with h2 | h2
      · rw [h2] at hx; simp at hx
      · exact List.mem_cons_of_mem _ (ih l h2 x hx)
    · rw [if_neg h] at hl
      cases hsp : splitOnChar sep cs with
      | nil => exact absurd hsp (splitOnChar_ne_nil sep cs)
      | cons m ms =>
        rw [hsp] at hl
        rcases List.mem_cons.mp hl with h2 | h2
        · rw [h2] at hx
          rcases List.mem_cons.mp hx with h3 | h3
          · exact h3 ▸ List.mem_cons_self _ _
          · exact List.mem_cons_of_mem _
              (ih m (hsp ▸ List.mem_cons_self _ _) x h3)
        · exact List.mem_cons_of_mem _
            (ih l (hsp ▸ List.mem_cons_of_mem _ h2) x hx)

theorem lastPart_mem : ∀ (ls : List (List Char)), ls ≠ [] → lastPart ls ∈ ls := by
  intro ls
  induction ls with
  | nil => intro h; exact absurd rfl h
  | cons x xs ih =>
    intro _
    cases xs with
    | nil => exact List.mem_cons_self _ _
    | cons y ys =>
      exact List.mem_cons_of_mem _ (ih (List.cons_ne_nil _ _))

theorem resolveFilename_no_nl {p : List Char} (h : '\n' ∉ p) :
    '\n' ∉ resolveFilename p := by
  intro hx
  have h1 := (List.takeWhile_sublist _).subset hx
  have h2 := (List.takeWhile_sublist _).subset h1
  have h3 := pyStrip_subset _ h2
  have h4 :=
    mem_of_mem_splitOnChar '/' (p.map (fun c => if c = '\\' then '/' else c)) _
      (lastPart_mem _ (splitOnChar_ne_nil _ _)) _ h3
  rcases List.mem_map.mp h4 with ⟨y, hy, hfy⟩
  by_cases hb : (y = '\\' : Prop)
  · rw [if_pos hb] at hfy
    exact absurd hfy (by decide)
  · rw [if_neg hb] at hfy
    exact h (hfy ▸ hy)

theorem parseImageLine_subset {st : Line} {alt path : List Char}
    (h : parseImageLine st = some (alt, path)) :
    (∀ x ∈ alt, x ∈ st) ∧ ∀ x ∈ path, x ∈ st := by
  match st with
  | [] => exact absurd h (by simp [parseImageLine])
  | [a] => exact absurd h (by simp [parseImageLine])
  | a :: b :: r =>
    rw [parseImageLine] at h
    by_cases hab : (a = '!' && b = '[') = true
    · rw [if_pos hab] at h
      cases hdw : r.dropWhile (fun c => !(c = ']')) with
      | nil =>
        rw [hdw] at h
        have h2 : (none : Option (Line × List Char)) = some (alt, path) := h
        exact absurd h2 (by simp)
      | cons b1 t1 =>
        cases t1 with
        | nil =>
          rw [hdw] at h
          have h2 : (none : Option (Line × List Char)) = some (alt, path) := h
          exact absurd h2 (by simp)
        | cons b2 rest =>
          rw [hdw, parseImagePath] at h
          by_cases hb : (b1 = ']' && b2 = '(') = true
          · rw [if_pos hb] at h
            cases hpe : parenPathEnd 1 0 rest with
            | none =>
              rw [hpe] at h
              have h2 : (none : Option (Line × List Char)) = some (alt, path) := h
              exact absurd h2 (by simp)
            | some pe =>
              rw [hpe] at h
              have h3 : (if 0 < pe then
                  some ((r.takeWhile (fun c => !(c = ']'))), rest.take pe)
                else none) = some (alt, path) := h
              by_cases hpos : 0 < pe
              · rw [if_pos hpos] at h3
                injection h3 with h'
                obtain ⟨h1, h2⟩ := Prod.mk.injEq .. |>.mp h'
                constructor
                · intro x hx
                  rw [← h1] at hx
                  exact List.mem_cons_of_mem _ (List.mem_cons_of_mem _
                    ((List.takeWhile_sublist _).subset hx))
                · intro x hx
                  rw [← h2] at hx
                  have hr : x ∈ r.dropWhile (fun c => !(c = ']')) := by
                    rw [hdw]
                    exact List.mem_cons_of_mem _ (List.mem_cons_of_mem _
                      ((List.take_sublist _ _).subset hx))
                  exact List.mem_cons_of_mem _ (List.mem_cons_of_mem _
                    ((List.dropWhile_sublist _).subset hr))
              · rw [if_neg hpos] at h3; exact absurd h3 (by simp)
          · rw [if_neg hb] at h; exact absurd h (by simp)
    · rw [if_neg hab] at h; exact absurd h (by simp)

theorem canonical_no_nl {l0 alt path : List Char} (hnl : '\n' ∉ l0)
    (hp : parseImageLine (pyStrip l0) = some (alt, path)) :
    '\n' ∉ canonicalImgLine alt (resolveFilename path) := by
  intro hx
  have hsub := parseImageLine_subset hp
  have hpathnl : '\n' ∉ path := fun hm => hnl (pyStrip_subset _ (hsub.2 _ hm))
  rw [canonicalImgLine] at hx
  rcases List.mem_append.mp hx with h1 | h1
  · rcases List.mem_append.mp h1 with h2 | h2
    · rcases List.mem_append.mp h2 with h3 | h3
      · rcases List.mem_cons.mp h3 with h4 | h4
        · exact absurd h4 (by decide)
        · rcases List.mem_cons.mp h4 with h5 | h5
          · exact absurd h5 (by decide)
          · exact hnl (pyStrip_subset _ (hsub.1 _ h5))
      · exact absurd h3 (by decide)
    · exact resolveFilename_no_nl hpathnl h2
  · exact absurd h1 (by decide)

theorem imgStep_eq_if (st : ImgState) (l alt path : List Char)
    (hp : parseImageLine (pyStrip l) = some (alt, path)) :
    imgStep st l =
      (if imageExts.contains (extOf (toLowerL (resolveFilename path)))
          && !((resolveFilename path).isEmpty) then
        if st.lastWas && st.lastFile = some (resolveFilename path) then st
        else if st.seen.contains (resolveFilename path)
            && decide (st.fixed.length < 10) then st
        else
          { fixed := st.fixed ++ [canonicalImgLine alt (resolveFilename path)]
            seen := resolveFilename path :: st.seen
            lastWas := true
            lastFile := some (resolveFilename path) }
      else
        { fixed := st.fixed ++ [l]
          seen := st.seen
          lastWas := if (pyStrip l).isEmpty then st.lastWas else false
          lastFile := if (pyStrip l).isEmpty then st.lastFile else none }) := by
  show (match parseImageLine (pyStrip l) with
    | some ap =>
      (let fn := resolveFilename ap.2
       if imageExts.contains (extOf (toLowerL fn)) && !(fn.isEmpty) then
         if st.lastWas && st.lastFile = some fn then st
         else if st.seen.contains fn && decide (st.fixed.length < 10) then st
         else
           { fixed := st.fixed ++ [canonicalImgLine ap.1 fn]
             seen := fn :: st.seen
             lastWas := true
             lastFile := some fn }
       else
         { fixed := st.fixed ++ [l]
           seen := st.seen
           lastWas := if (pyStrip l).isEmpty then st.lastWas else false
           lastFile := if (pyStrip l).isEmpty then st.lastFile else none })
    | none =>
      { fixed := st.fixed ++ [l]
        seen := st.seen
        lastWas := if (pyStrip l).isEmpty then st.lastWas else false
        lastFile := if (pyStrip l).isEmpty then st.lastFile else none }) = _
  rw [hp]

theorem imgStep_dichotomy (st : ImgState) (l alt path : List Char)
    (hp : parseImageLine (pyStrip l) = some (alt, path))
    (hext : imageExts.contains (extOf (toLowerL (resolveFilename path))) = true)
    (hfn : (resolveFilename path).isEmpty = false) :
    imgStep st l = st
    ∨ imgStep st l =
        { fixed := st.fixed ++ [canonicalImgLine alt (resolveFilename path)]
          seen := resolveFilename path :: st.seen
          lastWas := true
          lastFile := some (resolveFilename path) } := by
  have hg : (imageExts.contains (extOf (toLowerL (resolveFilename path)))
      && !(resolveFilename path).isEmpty) = true := by rw [hext, hfn]; rfl
  have he := imgStep_eq_if st l alt path hp
  by_cases h1 : (st.lastWas && st.lastFile = some (resolveFilename path)) = true
  · left
    rw [he, if_pos hg, if_pos h1]
  · by_cases h2 :
      (st.seen.contains (resolveFilename path) && decide (st.fixed.length < 10)) = true
    · left
      rw [he, if_pos hg, if_neg h1, if_pos h2]
    · right
      rw [he, if_pos hg, if_neg h1, if_neg h2]

theorem imgFold_inv :
    ∀ (lines : List Line) (st : ImgState),
      (∀ l ∈ lines, '\n' ∉ l) →
      (∀ l ∈ st.fixed, '\n' ∉ l ∧
        (imgQualify l = true → ∃ alt fn, l = canonicalImgLine alt fn)) →
      ∀ l ∈ (lines.foldl imgStep st).fixed,
        '\n' ∉ l ∧ (imgQualify l = true → ∃ alt fn, l = canonicalImgLine alt fn) := by
  intro lines
  induction lines with
  | nil => intro st _ hst l hl; exact hst l hl
  | cons l0 ls ih =>
    intro st hln hst l hl
    rw [List.foldl_cons] at hl
    refine ih (imgStep st l0) (fun x hx => hln x (List.mem_cons_of_mem _ hx)) ?_ l hl
    intro x hx
    have hl0 : '\n' ∉ l0 := hln l0 (List.mem_cons_self _ _)
    cases hp : parseImageLine (pyStrip l0) with
    | none =>
      simp only [imgStep, hp] at hx
      rcases List.mem_append.mp hx with h | h
      · exact hst x h
      · have hx0 : x = l0 := by simpa using h
        subst hx0
        refine ⟨hl0, fun hq => ?_⟩
        rw [imgQualify, hp] at hq
        exact absurd hq (by simp)
    | some ap =>
      obtain ⟨alt, path⟩ := ap
      by_cases hg :
          (imageExts.contains (extOf (toLowerL (resolveFilename path)))
            && !(resolveFilename path).isEmpty) = true
      · have hext : imageExts.contains (extOf (toLowerL (resolveFilename path))) = true :=
          (Bool.and_eq_true .. |>.mp hg).1
        have hfn : (resolveFilename path).isEmpty = false := by
          have := (Bool.and_eq_true .. |>.mp hg).2
          simpa using this
        rcases imgStep_dichotomy st l0 alt path hp hext hfn with hstep | hstep
        · rw [hstep] at hx
          exact hst x hx
        · rw [hstep] at hx
          rcases List.mem_append.mp hx with h | h
          · exact hst x h
          · have hx0 : x = canonicalImgLine alt (resolveFilename path) := by simpa using h
            subst hx0
            exact ⟨canonical_no_nl hl0 hp, fun _ => ⟨alt, resolveFilename path, rfl⟩⟩
      · have hx2 : x ∈ st.fixed ++ [l0] := by
          rw [imgStep_eq_if st l0 alt path hp, if_neg hg] at hx
          exact hx
        rcases List.mem_append.mp hx2 with h | h
        · exact hst x h
        · have hx0 : x = l0 := by simpa using h
          subst hx0
          refine ⟨hl0, fun hq => ?_⟩
          rw [imgQualify, hp] at hq
          have hq2 : (imageExts.contains (extOf (toLowerL (resolveFilename path)))
              && !(resolveFilename path).isEmpty) = true := hq
          exact absurd hq2 hg

/-! ## The claims -/

/-- C1, counterexample: with a missing images directory and a document
holding one package-root image reference, extract_and_process_images
returns the text unchanged, which is not the path-canonicalized text
the claim requires (fix_all_image_paths would rewrite it). -/
theorem C1_counterexample :
    (extract_and_process_images ("![](OEBPS/images/cover.jpg)".toList) false [] 0).updated_content
        = ("![](OEBPS/images/cover.jpg)".toList)
    ∧ fixAllImagePaths ("![](OEBPS/images/cover.jpg)".toList)
        ≠ ("![](OEBPS/images/cover.jpg)".toList) := by
  exact ⟨rfl, by decide⟩

/-- C1 (amended): if the images directory does not exist,
extract_and_process_images returns the input text unchanged (no
path-canonicalization rewriting is applied) and reports zero images
found, processed and moved. -/
theorem C1_theorem (content : List Char) (imageFiles : List (List Char)) (moved : Nat) :
    extract_and_process_images content false imageFiles moved
      = ⟨0, 0, 0, content⟩ := rfl

/-- C2, counterexample: an image construct that does not begin its line,
and one whose extension is not in the recognised set, are left
unchanged by fix_all_image_paths, so not every embedded-image
construct's path is canonicalized. -/
theorem C2_counterexample :
    fixAllImagePaths ("text ![](OEBPS/images/cover.jpg)".toList)
        = ("text ![](OEBPS/images/cover.jpg)".toList)
    ∧ fixAllImagePaths ("![](a/b.tiff)".toList) = ("![](a/b.tiff)".toList) := by
  exact ⟨by decide, by decide⟩

/-- C2 (amended): in every document, an image construct that begins a
(whitespace-stripped) line and whose resolved filename has a recognised
image extension and is nonempty is, at every position of the
normalizer's line fold, either dropped by the duplicate-image policy or
emitted with its path component exactly "./images/" followed by the
resolved filename (the final path segment with query string and
fragment stripped); consequently every image-qualifying line of the
rewritten document is such a canonical line; and a path containing
literal parentheses is delimited by the nested-parenthesis depth scan,
so a series-named folder still canonicalizes to the plain basename
rather than stopping at the first closing parenthesis. -/
theorem C2_theorem :
    (∀ (st : ImgState) (l alt path : List Char),
      parseImageLine (pyStrip l) = some (alt, path) →
      imageExts.contains (extOf (toLowerL (resolveFilename path))) = true →
      (resolveFilename path).isEmpty = false →
      imgStep st l = st
      ∨ imgStep st l =
          { fixed := st.fixed ++ [canonicalImgLine alt (resolveFilename path)]
            seen := resolveFilename path :: st.seen
            lastWas := true
            lastFile := some (resolveFilename path) })
    ∧ (∀ (c : List Char), ∀ l ∈ splitLines (fixAllImagePaths c),
        imgQualify l = true → ∃ alt fn, l = canonicalImgLine alt fn)
    ∧ fixAllImagePaths ("![](../Book (Series)/images/cover.jpg)".toList)
        = ("![](./images/cover.jpg)".toList) := by
  refine ⟨imgStep_dichotomy, ?_, by decide⟩
  intro c l hl hq
  have hinv := imgFold_inv (splitLines c) ⟨[], [], false, none⟩
    (fun x hx => not_mem_splitOnChar '\n' c x hx)
    (fun x hx => absurd hx (List.not_mem_nil x))
  cases hF : ((splitLines c).foldl imgStep ⟨[], [], false, none⟩).fixed with
  | nil =>
    have hout : fixAllImagePaths c = [] := by
      rw [fixAllImagePaths, hF]
      rfl
    rw [hout] at hl
    have hle : l = [] := by simpa [splitLines, splitOnChar] using hl
    rw [hle] at hq
    exact absurd hq (by decide)
  | cons f fs =>
    have hout : splitLines (fixAllImagePaths c)
        = ((splitLines c).foldl imgStep ⟨[], [], false, none⟩).fixed := by
      rw [fixAllImagePaths]
      refine splitLines_joinLines _ ?_ ?_
      · rw [hF]
        exact List.cons_ne_nil _ _
      · intro x hx
        exact (hinv x hx).1
    rw [hout] at hl
    exact (hinv l hl).2 hq

/-- C2, witness: on a document with one package-root image reference,
the image-qualifying output line is a canonical ./images/ line. -/
theorem C2_witness :
    ∃ alt fn, ("![cover](./images/cover.jpg)".toList) = canonicalImgLine alt fn :=
  C2_theorem.2.1 ("![cover](OEBPS/images/cover.jpg)".toList)
    ("![cover](./images/cover.jpg)".toList) (by decide) (by decide)

/-- C3, counterexample: span removal, header fixing, link fixing and
whitespace normalization each change their own output on a second run
(nested span artifacts, stacked header attribute blocks, nested
internal links, and whitespace-interleaved blank lines respectively),
so the claim that every individual rule is idempotent fails. -/
theorem C3_counterexample :
    (removeSpanArtifacts ((removeSpanArtifacts ("[[ ]\x7b#a\x7d]\x7b#b\x7d".toList)).1)).1
        ≠ (removeSpanArtifacts ("[[ ]\x7b#a\x7d]\x7b#b\x7d".toList)).1
    ∧ (fixHeaderFormatting ((fixHeaderFormatting ("# T \x7b#a\x7d\x7b#b\x7d".toList)).1)).1
        ≠ (fixHeaderFormatting ("# T \x7b#a\x7d\x7b#b\x7d".toList)).1
    ∧ (fixLinkArtifacts ((fixLinkArtifacts ("[[x](#a.html)](#b.html)".toList)).1)).1
        ≠ (fixLinkArtifacts ("[[x](#a.html)](#b.html)".toList)).1
    ∧ normalizeWhitespaceContent (normalizeWhitespaceContent ("a\n \n \n \nb".toList))
        ≠ normalizeWhitespaceContent ("a\n \n \n \nb".toList) := by
  exact ⟨by decide, by decide, by decide, by decide⟩

/-- C3 (amended): block-wrapper removal is idempotent — running it a
second time on its own output changes nothing and reports zero matches
— while span removal, header fixing, link fixing and whitespace
normalization are not idempotent in general. -/
theorem C3_theorem (c : List Char) :
    removeDivBlocksFromContent ((removeDivBlocksFromContent c).1)
      = ((removeDivBlocksFromContent c).1, 0) := by
  have hnoO := removeDiv_out_noO c
  have hnoC := removeDiv_out_noC c
  have h2 : removeDivBlocksFromContent ((removeDivBlocksFromContent c).1)
      = (joinLines (subMAux matchC
          (subMAux matchO (splitLines (removeDivBlocksFromContent c).1).length
            (splitLines (removeDivBlocksFromContent c).1)).length
          (subMAux matchO (splitLines (removeDivBlocksFromContent c).1).length
            (splitLines (removeDivBlocksFromContent c).1))),
         countMAux matchO (splitLines (removeDivBlocksFromContent c).1).length
            (splitLines (removeDivBlocksFromContent c).1)
          + countMAux matchC (splitLines (removeDivBlocksFromContent c).1).length
            (splitLines (removeDivBlocksFromContent c).1)) := rfl
  rw [h2]
  rw [subMAux_of_none _ _ _ hnoO]
  rw [subMAux_of_none _ _ _ hnoC]
  rw [countMAux_of_none _ _ _ hnoO, countMAux_of_none _ _ _ hnoC]
  rw [joinLines_splitLines]

/-- C4, counterexample: on a document holding a span artifact nested in
an internal-link construct, disabling only the span pass changes the
link pass's count from one to zero, so disabling one pass does affect
another pass's count. -/
theorem C4_counterexample :
    (clean_markdown ("[[]\x7b#x\x7d](#a.html)".toList) true true true true true).2.links_fixed = 1
    ∧ (clean_markdown ("[[]\x7b#x\x7d](#a.html)".toList) true false true true true).2.links_fixed
        = 0 := by
  exact ⟨by decide, by decide⟩

/-- C4 (amended): each pass runs if and only if its toggle is set and
the final artifact sweep always runs; toggling a pass leaves the counts
of the passes that run before it unchanged (and toggling whitespace
normalization, which has no count and runs after the counted passes,
changes no count at all), but a disabled pass can change the input, and
hence the count, of a later pass. -/
theorem C4_theorem :
    (∀ (c : List Char) (t1 t3 t4 t5 : Bool),
      (clean_markdown c t1 true t3 t4 t5).2.divs_removed
        = (clean_markdown c t1 false t3 t4 t5).2.divs_removed)
    ∧ (∀ (c : List Char) (t1 t2 t4 t5 : Bool),
      (clean_markdown c t1 t2 true t4 t5).2.divs_removed
          = (clean_markdown c t1 t2 false t4 t5).2.divs_removed
        ∧ (clean_markdown c t1 t2 true t4 t5).2.spans_removed
          = (clean_markdown c t1 t2 false t4 t5).2.spans_removed)
    ∧ (∀ (c : List Char) (t1 t2 t3 t4 : Bool),
      (clean_markdown c t1 t2 t3 t4 true).2.divs_removed
          = (clean_markdown c t1 t2 t3 t4 false).2.divs_removed
        ∧ (clean_markdown c t1 t2 t3 t4 true).2.spans_removed
          = (clean_markdown c t1 t2 t3 t4 false).2.spans_removed
        ∧ (clean_markdown c t1 t2 t3 t4 true).2.headers_fixed
          = (clean_markdown c t1 t2 t3 t4 false).2.headers_fixed)
    ∧ (∀ (c : List Char) (t1 t2 t3 t5 : Bool),
      (clean_markdown c t1 t2 t3 true t5).2
        = (clean_markdown c t1 t2 t3 false t5).2)
    ∧ (∀ (c : List Char) (t1 t2 t3 t4 t5 : Bool),
      (clean_markdown c t1 t2 t3 t4 t5).1
        = finalCleanup (cleanBeforeFinal c t1 t2 t3 t4 t5)) := by
  refine ⟨fun c t1 t3 t4 t5 => ?_, fun c t1 t2 t4 t5 => ⟨?_, ?_⟩,
    fun c t1 t2 t3 t4 => ⟨?_, ?_, ?_⟩, fun c t1 t2 t3 t5 => ?_,
    fun c t1 t2 t3 t4 t5 => ?_⟩ <;>
  simp only [clean_markdown, cleanBeforeFinal]

/-- C5: evaluating final_cleanup on a document whose middle line is an
escaped-asterisk separator (or a spaced-asterisk separator) yields a
document with the line deleted outright — the inserted horizontal-rule
marker is removed again by the artifact-only-line filter later in the
same pass — so the output contains no horizontal-rule marker at all,
contradicting the claim. -/
theorem C5_theorem :
    finalCleanup ("Intro\n\\*\\*\\*\\*\\*\nOutro".toList) = ("Intro\n\nOutro".toList)
    ∧ finalCleanup ("Intro\n* * * * *\nOutro".toList) = ("Intro\n\nOutro".toList)
    ∧ hasSub ("---".toList) ("Intro\n\nOutro".toList) = false := by
  exact ⟨by decide, by decide, by decide⟩

/-- C6, counterexample: past the ten-line lookback window, an image whose
resolved filename equals that of the most recent image-bearing line is
kept when a non-blank text line stands between them — the claim says a
repeat of the immediately preceding image-bearing line is dropped, but
the code only drops repeats with no intervening non-blank line. -/
theorem C6_counterexample :
    (splitLines (fixAllImagePaths
        ("l0\nl1\nl2\nl3\nl4\nl5\nl6\nl7\nl8\nl9\n![](a.jpg)\nxx\n![](a.jpg)".toList))).count
      ("![](./images/a.jpg)".toList) = 2 := by
  decide

/-- C6 (amended): in the image normalizer, an image whose resolved
filename equals the remembered previous image (a repeat with only blank
lines between) is dropped; within the first ten emitted lines an image
whose resolved filename was already seen is dropped even without the
consecutive condition; and beyond that window a non-consecutive repeat
is emitted again in canonical form (not deduplicated here). -/
theorem C6_theorem :
    (∀ (st : ImgState) (l alt path : List Char),
      parseImageLine (pyStrip l) = some (alt, path) →
      imageExts.contains (extOf (toLowerL (resolveFilename path))) = true →
      (resolveFilename path).isEmpty = false →
      st.lastWas = true → st.lastFile = some (resolveFilename path) →
      imgStep st l = st)
    ∧ (∀ (st : ImgState) (l alt path : List Char),
      parseImageLine (pyStrip l) = some (alt, path) →
      imageExts.contains (extOf (toLowerL (resolveFilename path))) = true →
      (resolveFilename path).isEmpty = false →
      st.lastWas = false →
      st.seen.contains (resolveFilename path) = true → st.fixed.length < 10 →
      imgStep st l = st)
    ∧ (∀ (st : ImgState) (l alt path : List Char),
      parseImageLine (pyStrip l) = some (alt, path) →
      imageExts.contains (extOf (toLowerL (resolveFilename path))) = true →
      (resolveFilename path).isEmpty = false →
      st.lastWas = false → 10 ≤ st.fixed.length →
      imgStep st l =
        { fixed := st.fixed ++ [canonicalImgLine alt (resolveFilename path)]
          seen := resolveFilename path :: st.seen
          lastWas := true
          lastFile := some (resolveFilename path) }) := by
  refine ⟨?_, ?_, ?_⟩
  · intro st l alt path hp hext hfn hlw hlf
    simp only [imgStep, hp, hext, hfn, hlw, hlf]
    simp
  · intro st l alt path hp hext hfn hlw hseen hlt
    simp only [imgStep, hp, hext, hfn, hlw, hseen, hlt]
    simp [hlt]
  · intro st l alt path hp hext hfn hlw h10
    have hnlt : ¬(st.fixed.length < 10) := by omega
    simp only [imgStep, hp, hext, hfn, hlw]
    simp [hnlt]

/-- C6, witness: the three dedup behaviors at concrete states: a
consecutive repeat is dropped, an already-seen image inside the window
is dropped, and a non-consecutive repeat past the window is kept. -/
theorem C6_witness :
    imgStep ⟨[("x".toList)], [("a.jpg".toList)], true, some ("a.jpg".toList)⟩
        ("![](img/a.jpg)".toList)
      = ⟨[("x".toList)], [("a.jpg".toList)], true, some ("a.jpg".toList)⟩
    ∧ imgStep ⟨[("x".toList)], [("a.jpg".toList)], false, none⟩
        ("![](img/a.jpg)".toList)
      = ⟨[("x".toList)], [("a.jpg".toList)], false, none⟩
    ∧ imgStep ⟨[("l0".toList), ("l1".toList), ("l2".toList), ("l3".toList), ("l4".toList),
          ("l5".toList), ("l6".toList), ("l7".toList), ("l8".toList), ("l9".toList)],
          [("a.jpg".toList)], false, none⟩
        ("![](img/a.jpg)".toList)
      = ⟨[("l0".toList), ("l1".toList), ("l2".toList), ("l3".toList), ("l4".toList),
          ("l5".toList), ("l6".toList), ("l7".toList), ("l8".toList), ("l9".toList),
          ("![](./images/a.jpg)".toList)],
          [("a.jpg".toList), ("a.jpg".toList)], true, some ("a.jpg".toList)⟩ :=
  ⟨C6_theorem.1 _ _ ([]) ("img/a.jpg".toList) (by decide) (by decide) (by decide)
      (by decide) (by decide),
   C6_theorem.2.1 _ _ ([]) ("img/a.jpg".toList) (by decide) (by decide) (by decide)
      (by decide) (by decide) (by decide),
   C6_theorem.2.2 _ _ ([]) ("img/a.jpg".toList) (by decide) (by decide) (by decide)
      (by decide) (by decide)⟩

/-- C7, counterexample: a whitespace-only line following a bare closing
marker is absorbed by the marker match's trailing-whitespace
consumption, so the pass deletes a line that is not an opening or
closing marker, against "deletes exactly the marker lines, keeps the
enclosed content in place". -/
theorem C7_counterexample :
    removeDivBlocksFromContent (":::\n \nx".toList) = (("\nx").toList, 1)
    ∧ isOpenMarkerLine (" ".toList) = false
    ∧ isCloseMarkerLine (" ".toList) = false
    ∧ (" ".toList) ∈ splitLines (":::\n \nx".toList)
    ∧ (" ".toList) ∉ splitLines (("\nx").toList) := by
  exact ⟨by decide, by decide, by decide, by decide, by decide⟩

/-- C7 (amended): when every opening marker closes its brace set on its
own line, the block-wrapper pass keeps every non-whitespace-only,
non-marker line; it returns the number of opening-pattern matches plus
closing-pattern matches; and afterwards no line of the output matches
an opening or closing block-marker pattern (a marker match replaces the
marker with an empty line and may absorb following whitespace-only
lines). -/
theorem C7_theorem (c : List Char)
    (hg : ∀ l ∈ splitLines c, startsOpen l = true → isOpenMarkerLine l = true) :
    (removeDivBlocksFromContent c).2
        = countMAux matchO (splitLines c).length (splitLines c)
          + countMAux matchC (splitLines c).length (splitLines c)
    ∧ (∀ l ∈ splitLines c, wsOnly l = false → isOpenMarkerLine l = false →
        isCloseMarkerLine l = false →
        l ∈ splitLines (removeDivBlocksFromContent c).1)
    ∧ ∀ l ∈ splitLines (removeDivBlocksFromContent c).1,
        isOpenMarkerLine l = false ∧ isCloseMarkerLine l = false := by
  refine ⟨rfl, ?_, ?_⟩
  · intro l hl hws hop hcl
    rw [removeDiv_split c]
    exact keep_subC _ _ _ le_rfl (keep_subO _ _ _ le_rfl hg hl hws hop) hws hcl
  · intro l hl
    exact ⟨isOpen_false_of_noO (removeDiv_out_noO c) l hl,
      isClose_false_of_noC (removeDiv_out_noC c) l hl⟩

/-- C7, witness: on the unit-test document the wrapped content survives
the block-wrapper pass. -/
theorem C7_witness :
    ("Hello World".toList) ∈ splitLines
      (removeDivBlocksFromContent ("::: \x7b#test\x7d\nHello World\n:::".toList)).1 :=
  (C7_theorem _ (by decide)).2.1 _ (by decide) (by decide) (by decide) (by decide)

/-- C8, counterexample: a date value holding a double quote is emitted
verbatim in the synthesized frontmatter — the escaped form would differ
— so not every emitted field value has embedded quotes escaped. -/
theorem C8_counterexample :
    generate_frontmatter { date := some ("20\"22".toList) } []
        = ("---\ndate: \"20\"22\"\n---".toList)
    ∧ escapeQuotes ("20\"22".toList) ≠ ("20\"22".toList) := by
  exact ⟨by decide, by decide⟩

/-- C8 (amended): in the synthesized frontmatter, the title, author and
publisher values are emitted with embedded double quotes escaped, the
description value with quotes escaped and line breaks collapsed to
spaces, while the date, language and custom-field values are emitted
verbatim without escaping; absent or empty fields are omitted. -/
theorem C8_theorem (m : Metadata) (cf : List (List Char × List Char)) :
    (∀ t, pyTruthy m.title = some t →
      quoteField ("title".toList) (escapeQuotes t) ∈ frontmatterLines m cf)
    ∧ (∀ a, pyTruthy m.author = some a →
      quoteField ("author".toList) (escapeQuotes a) ∈ frontmatterLines m cf)
    ∧ (∀ p, pyTruthy m.publisher = some p →
      quoteField ("publisher".toList) (escapeQuotes p) ∈ frontmatterLines m cf)
    ∧ (∀ d, pyTruthy m.date = some d →
      quoteField ("date".toList) d ∈ frontmatterLines m cf)
    ∧ (∀ lg, pyTruthy m.language = some lg →
      quoteField ("language".toList) lg ∈ frontmatterLines m cf)
    ∧ (∀ d, pyTruthy m.description = some d →
      quoteField ("description".toList) (collapseNlSp (escapeQuotes d))
        ∈ frontmatterLines m cf)
    ∧ (∀ kv ∈ cf, quoteField kv.1 kv.2 ∈ frontmatterLines m cf) := by
  refine ⟨?_, ?_, ?_, ?_, ?_, ?_, ?_⟩
  · intro t ht
    simp [frontmatterLines, ht]
  · intro a ha
    simp [frontmatterLines, ha]
  · intro p hp
    simp [frontmatterLines, hp]
  · intro d hd
    simp [frontmatterLines, hd]
  · intro lg hlg
    simp [frontmatterLines, hlg]
  · intro d hd
    simp [frontmatterLines, hd]
  · intro kv hkv
    simp only [frontmatterLines, List.mem_append]
    exact Or.inl (Or.inr (List.mem_map_of_mem _ hkv))

/-- C8, witness: the spec's own example — a title holding a double quote
is escaped in the rendered field — and a date with a quote is emitted
verbatim. -/
theorem C8_witness :
    quoteField ("title".toList) (escapeQuotes ("He said \"Hi\"".toList))
      ∈ frontmatterLines { title := some ("He said \"Hi\"".toList) } []
    ∧ quoteField ("date".toList) ("20\"22".toList)
      ∈ frontmatterLines { date := some ("20\"22".toList) } [] :=
  ⟨(C8_theorem _ _).1 _ (by decide), (C8_theorem _ _).2.2.2.1 _ (by decide)⟩

/-- C9, counterexample: unbalanced attribute syntax is not always left
unmodified at the occurrence: in the text "[]" followed by an attribute
set whose opening brace is never closed but which contains a later
brace pair, the braces are unbalanced, yet the span rule matches
through the first closing brace and deletes the whole occurrence,
returning the empty text with a count of one. -/
theorem C9_counterexample :
    braceBalanced ("[]\x7b#a \x7bx\x7d".toList) = false
    ∧ removeSpanArtifacts ("[]\x7b#a \x7bx\x7d".toList) = (([] : List Char), 1) := by
  exact ⟨by decide, by decide⟩

/-- C9 (amended): the cleanup rules are total functions (the embedding
returns normally on every input); content whose attribute syntax never
closes - no right brace follows the opening - is left unmodified by the
span pass with a zero count, and such a malformed occurrence survives
the whole pipeline unchanged with all counts zero; an unbalanced
occurrence with a later right brace, however, is matched through that
brace and consumed. -/
theorem C9_theorem :
    (∀ s : List Char, rbrace ∉ s → removeSpanArtifacts s = (s, 0))
    ∧ hasSub ("[]\x7b#unclosed".toList)
        (clean_markdown ("text []\x7b#unclosed rest".toList) true true true true true).1 = true
    ∧ (clean_markdown ("text []\x7b#unclosed rest".toList) true true true true true).2
        = ⟨0, 0, 0, 0⟩ := by
  exact ⟨fun _ h => removeSpan_skip h, by decide, by decide⟩

/-- C9, witness: a concrete brace-free text passes the span rule
unchanged with a zero count. -/
theorem C9_witness : removeSpanArtifacts ("plain [ text".toList) = ("plain [ text".toList, 0) :=
  C9_theorem.1 _ (by decide)

/-- C10: clean_markdown returns the statistics structure whose exact
four fields are divs_removed, spans_removed, headers_fixed and
links_fixed, each a natural number, and the count of every disabled
pass is zero. -/
theorem C10_theorem (content : List Char) (t1 t2 t3 t4 t5 : Bool) :
    (t1 = false → (clean_markdown content t1 t2 t3 t4 t5).2.divs_removed = 0)
    ∧ (t2 = false → (clean_markdown content t1 t2 t3 t4 t5).2.spans_removed = 0)
    ∧ (t3 = false → (clean_markdown content t1 t2 t3 t4 t5).2.headers_fixed = 0)
    ∧ (t5 = false → (clean_markdown content t1 t2 t3 t4 t5).2.links_fixed = 0) := by
  refine ⟨fun h => ?_, fun h => ?_, fun h => ?_, fun h => ?_⟩ <;> subst h <;> rfl

/-- C10, witness: with every toggle disabled all four reported counts
are zero. -/
theorem C10_witness :
    (clean_markdown ("x".toList) false false false false false).2.divs_removed = 0
    ∧ (clean_markdown ("x".toList) false false false false false).2.spans_removed = 0
    ∧ (clean_markdown ("x".toList) false false false false false).2.headers_fixed = 0
    ∧ (clean_markdown ("x".toList) false false false false false).2.links_fixed = 0 :=
  ⟨(C10_theorem _ _ _ _ _ _).1 rfl, (C10_theorem _ _ _ _ _ _).2.1 rfl,
   (C10_theorem _ _ _ _ _ _).2.2.1 rfl, (C10_theorem _ _ _ _ _ _).2.2.2 rfl⟩

end Epub2md
